import Mathlib

/-!
Shallow embedding of `mojo_formatter_final.py` (Mojolicious template formatter).

Lines and documents are modelled as `List Char`.  Python's regular-expression
searches are embedded as hand-written scanners that implement the exact
backtracking semantics of the concrete patterns used by the program (all of
them are simple enough that the leftmost match is computable by a direct scan).
Python integers that stay non-negative throughout the program are modelled as
`Nat` (every decrement in the source is guarded by `max(0, ...)` or
`max(indent_size, ...)`, which coincides with the `Nat` model).

A Python exception escaping `format` is modelled by `Option`/`none`
(`list.remove` raises `ValueError` when the exact element is absent).
-/

namespace MojoFmt

abbrev Str := List Char

/-- Python `str.isspace()` / `re` `\s` on a single character, faithful on the
whitespace code points Python recognises. -/
def pyIsSpace (c : Char) : Bool :=
  c = ' ' || c = '\t' || c = '\n' || c.val = 11 || c.val = 12 || c = '\r' ||
  c.val = 28 || c.val = 29 || c.val = 30 || c.val = 31 ||
  c.val = 0x85 || c.val = 0xa0 || c.val = 0x1680 ||
  (0x2000 ≤ c.val && c.val ≤ 0x200a) ||
  c.val = 0x2028 || c.val = 0x2029 || c.val = 0x202f || c.val = 0x205f ||
  c.val = 0x3000

/-- Python `str.lstrip()`. -/
def pyLstrip (l : Str) : Str := l.dropWhile pyIsSpace

/-- Python `str.rstrip()`. -/
def pyRstrip (l : Str) : Str := (l.reverse.dropWhile pyIsSpace).reverse

/-- Python `str.strip()`. -/
def pyStrip (l : Str) : Str := pyRstrip (pyLstrip l)

/-- Python `' ' * n`. -/
def spaces (n : Nat) : Str := List.replicate n ' '

/-- Python `str.startswith`. -/
def startsW (pat l : Str) : Bool := List.isPrefixOf pat l

/-- Python `str.endswith`. -/
def endsW (pat l : Str) : Bool := List.isPrefixOf pat.reverse l.reverse

/-- Python `pat in s` (substring containment). -/
def containsSub (pat : Str) : Str → Bool
  | [] => startsW pat []
  | c :: rest => startsW pat (c :: rest) || containsSub pat rest

/-- ASCII lower-casing of one character; Python `str.lower()` restricted to the
ASCII range (the program only lower-cases regex-captured tag names, which are
ASCII `[a-zA-Z][a-zA-Z0-9]*` by construction). -/
def pyLowerChar (c : Char) : Char :=
  if 'A' ≤ c && c ≤ 'Z' then Char.ofNat (c.toNat + 32) else c

/-- Python `str.lower()` on a tag name. -/
def pyLower (l : Str) : Str := l.map pyLowerChar

/-- Characters that terminate a line for Python `str.splitlines()`. -/
def isLineBreakChar (c : Char) : Bool :=
  c = '\n' || c = '\r' || c.val = 11 || c.val = 12 ||
  c.val = 28 || c.val = 29 || c.val = 30 || c.val = 0x85 ||
  c.val = 0x2028 || c.val = 0x2029

/-- Fuelled worker for `splitLines`; `acc` holds the current line reversed and
a fuel of `length + 1` never runs out (every step consumes one character).
A `\r` directly followed by `\n` terminates the line as one unit. -/
def splitLinesF : Nat → Str → Str → List Str
  | 0, acc, l => [acc.reverse ++ l]
  | _ + 1, acc, [] => [acc.reverse]
  | fuel + 1, acc, c :: rest =>
      if isLineBreakChar c then
        let rest2 := if c = '\r' && rest.head? = some '\n' then rest.drop 1 else rest
        match rest2 with
        | [] => [acc.reverse]
        | _ :: _ => acc.reverse :: splitLinesF fuel [] rest2
      else splitLinesF fuel (c :: acc) rest

/-- Python `str.splitlines()`. -/
def splitLines (l : Str) : List Str :=
  match l with
  | [] => []
  | _ :: _ => splitLinesF (l.length + 1) [] l

/-- The `\n`-prefixed tail segments of a joined line list. -/
def joinNLSep (ls : List Str) : Str := ls.flatMap fun l => '\n' :: l

/-- Python `'\n'.join(lines)`. -/
def joinNL : List Str → Str
  | [] => []
  | l :: rest => l ++ joinNLSep rest

/-- Python `list.remove(a)` minus the error case: drop the first occurrence. -/
def removeFirst (a : Str) : List Str → List Str
  | [] => []
  | x :: xs => if x = a then xs else x :: removeFirst a xs

/-- String literal to character list. -/
def str (s : String) : Str := s.data

/-- Python `re` `\w` (ASCII part; all names the program matches are ASCII). -/
def pyIsWordChar (c : Char) : Bool := c.isAlphanum || c = '_'

/-- Regex word boundary `\b` at the start of the given remainder (the previous
character is always a word character at the call sites). -/
def wordBoundary : Str → Bool
  | [] => true
  | c :: _ => !pyIsWordChar c

/-- Fuelled worker for `scanT`; every step consumes at least one character, so
a fuel of `length + 1` never runs out. -/
def scanTF {α : Type} (parse : Str → Option (α × Nat)) : Nat → Str → List α
  | 0, _ => []
  | _, [] => []
  | fuel + 1, c :: rest =>
      match parse (c :: rest) with
      | some (a, k) => a :: scanTF parse fuel (rest.drop (k - 1))
      | none => scanTF parse fuel rest

/-- Generic scanner for `findall`: try `parse` at each position; on a match of
`k` consumed characters, resume after the match, else advance one character.
This is exactly how `re` produces non-overlapping leftmost matches. -/
def scanT {α : Type} (parse : Str → Option (α × Nat)) (l : Str) : List α :=
  scanTF parse (l.length + 1) l

/-- Fuelled worker for `subT`. -/
def subTF (parse : Str → Option (Unit × Nat)) : Nat → Str → Str
  | 0, l => l
  | _, [] => []
  | fuel + 1, c :: rest =>
      match parse (c :: rest) with
      | some (_, k) => subTF parse fuel (rest.drop (k - 1))
      | none => c :: subTF parse fuel rest

/-- Generic scanner for `re.sub(pat, '', s)`: delete every leftmost
non-overlapping match, keep all other characters. -/
def subT (parse : Str → Option (Unit × Nat)) (l : Str) : Str :=
  subTF parse (l.length + 1) l

/-- One keyword alternative of `%\s*(?:if|for|while|unless|begin)\b`. -/
def perlKeywords : List Str := [str "if", str "for", str "while", str "unless", str "begin"]

/-- Scan for a `{` reachable by `.*?` (which cannot cross a newline). -/
def braceBeforeNewline : Str → Bool
  | [] => false
  | c :: rest => c = '{' || (c ≠ '\n' && braceBeforeNewline rest)

/-- Match of `%\s*(?:if|for|while|unless|begin)\b.*?{` anchored at a `%` that
has just been consumed (`\s*` is forced to the maximal whitespace run because
every keyword starts with a letter). -/
def perlBlockStartAfterSigil (rest : Str) : Bool :=
  let r := rest.dropWhile pyIsSpace
  perlKeywords.any fun kw =>
    startsW kw r && wordBoundary (r.drop kw.length) && braceBeforeNewline (r.drop kw.length)

/-- Python `perl_block_start_pattern.search`:
`%\s*(?:if|for|while|unless|begin)\b.*?{`. -/
def searchPerlBlockStart : Str → Bool
  | [] => false
  | c :: rest => (c = '%' && perlBlockStartAfterSigil rest) || searchPerlBlockStart rest

/-- Match of `\s*begin\b` anchored after `=>`. -/
def beginAfterArrow (l : Str) : Bool :=
  let r := l.dropWhile pyIsSpace
  startsW (str "begin") r && wordBoundary (r.drop 5)

/-- Scan for `=>\s*begin\b` reachable by `.*?` (which cannot cross a newline). -/
def arrowBeginScan : Str → Bool
  | [] => false
  | c :: rest =>
      (startsW (str "=>") (c :: rest) && beginAfterArrow ((c :: rest).drop 2)) ||
      (c ≠ '\n' && arrowBeginScan rest)

/-- Python `content_block_start_pattern.search`:
`%\s*content_for\b.*?=>\s*begin\b`. -/
def searchContentBlockStart : Str → Bool
  | [] => false
  | c :: rest =>
      (c = '%' &&
        (let r := rest.dropWhile pyIsSpace
         startsW (str "content_for") r && wordBoundary (r.drop 11) &&
           arrowBeginScan (r.drop 11))) ||
      searchContentBlockStart rest

/-- Python `form_block_start_pattern.search`:
`%=\s*form_for\b.*?=>\s*begin\b`. -/
def searchFormBlockStart : Str → Bool
  | [] => false
  | c :: rest =>
      (c = '%' && startsW (str "=") rest &&
        (let r := (rest.drop 1).dropWhile pyIsSpace
         startsW (str "form_for") r && wordBoundary (r.drop 8) &&
           arrowBeginScan (r.drop 8))) ||
      searchFormBlockStart rest

/-- Python `perl_block_end_pattern.search`: `%\s*}`. -/
def searchPerlBlockEnd : Str → Bool
  | [] => false
  | c :: rest =>
      (c = '%' && startsW (str "\x7d") (rest.dropWhile pyIsSpace)) || searchPerlBlockEnd rest

/-- Python `perl_end_pattern.search`: `%\s*end\b`. -/
def searchPerlEnd : Str → Bool
  | [] => false
  | c :: rest =>
      (c = '%' &&
        (let r := rest.dropWhile pyIsSpace
         startsW (str "end") r && wordBoundary (r.drop 3))) ||
      searchPerlEnd rest

/-- Anchored match of `</([a-zA-Z][a-zA-Z0-9]*)>`; result is the captured name
and the number of consumed characters. -/
def parseCloseTagC (l : Str) : Option (Str × Nat) :=
  match l with
  | '<' :: '/' :: c :: rest =>
      if c.isAlpha then
        let name := c :: rest.takeWhile Char.isAlphanum
        match rest.dropWhile Char.isAlphanum with
        | '>' :: _ => some (name, name.length + 3)
        | _ => none
      else none
  | _ => none

/-- Python `html_close_tag_pattern.findall`. -/
def closeTagFindAll : Str → List Str := scanT parseCloseTagC

/-- Anchored match of `<([a-zA-Z][a-zA-Z0-9]*)[^>]*(?<!/)>`.  `[^>]*` can only
stop at the first `>`, so the match succeeds exactly when the character right
before that `>` is not `/`. -/
def parseOpenTagC (l : Str) : Option (Str × Nat) :=
  match l with
  | '<' :: c :: rest =>
      if c.isAlpha then
        let name := c :: rest.takeWhile Char.isAlphanum
        let afterName := rest.dropWhile Char.isAlphanum
        let mid := afterName.takeWhile (fun x => x ≠ '>')
        match afterName.drop mid.length with
        | '>' :: _ =>
            if (name ++ mid).getLast? = some '/' then none
            else some (name, 1 + name.length + mid.length + 1)
        | _ => none
      else none
  | _ => none

/-- Python `html_open_tag_pattern.findall`. -/
def openTagFindAll : Str → List Str := scanT parseOpenTagC

/-- Anchored match of `<([a-zA-Z][a-zA-Z0-9]*)[^>]*/>`: the first `>` after the
name must be immediately preceded by `/`. -/
def parseSelfCloseC (l : Str) : Option (Str × Nat) :=
  match l with
  | '<' :: c :: rest =>
      if c.isAlpha then
        let name := c :: rest.takeWhile Char.isAlphanum
        let afterName := rest.dropWhile Char.isAlphanum
        let mid := afterName.takeWhile (fun x => x ≠ '>')
        match afterName.drop mid.length with
        | '>' :: _ =>
            if (name ++ mid).getLast? = some '/' then some (name, 1 + name.length + mid.length + 1)
            else none
        | _ => none
      else none
  | _ => none

/-- Python `html_self_closing_tag_pattern.findall`. -/
def selfCloseFindAll : Str → List Str := scanT parseSelfCloseC

/-- Anchored match of `</[^>]+>` (the generic closing-tag form used by
`multiple_close_tags_pattern` and the post-pass pattern); returns the number of
consumed characters. -/
def genParseCloseC (l : Str) : Option Nat :=
  match l with
  | '<' :: '/' :: rest =>
      let body := rest.takeWhile (fun x => x ≠ '>')
      if body = [] then none
      else
        match rest.drop body.length with
        | '>' :: _ => some (body.length + 3)
        | _ => none
  | _ => none

/-- Scan for a second `</[^>]+>` reachable by `.*` (which cannot cross a
newline; the tag body itself may). -/
def scanSecondClose : Str → Bool
  | [] => false
  | c :: rest => (genParseCloseC (c :: rest)).isSome || (c ≠ '\n' && scanSecondClose rest)

/-- Python `multiple_close_tags_pattern.search`: `</[^>]+>.*</[^>]+>`. -/
def searchTwoCloseTags : Str → Bool
  | [] => false
  | c :: rest =>
      (match genParseCloseC (c :: rest) with
       | some k => scanSecondClose ((c :: rest).drop k)
       | none => false) ||
      searchTwoCloseTags rest

/-- Everything after the first `>` of the remainder, for `[^>]*>` tails. -/
def afterFirstGt (l : Str) : Option Str :=
  match l.dropWhile (fun x => x ≠ '>') with
  | '>' :: r => some r
  | _ => none

/-- Anchored match of `<br[^>]*>\s*` followed by the given continuation. -/
def brThenGt (l : Str) : Option Str :=
  if startsW (str "<br") l then
    match afterFirstGt (l.drop 3) with
    | some r => some (r.dropWhile pyIsSpace)
    | none => none
  else none

/-- Python `br_with_close_tags_pattern.search`: `<br[^>]*>\s*</[^>]+>`. -/
def searchBrClose : Str → Bool
  | [] => false
  | c :: rest =>
      (match brThenGt (c :: rest) with
       | some r => (genParseCloseC r).isSome
       | none => false) ||
      searchBrClose rest

/-- Anchored match of `</span>\s*</p>` resp. `</span>\s+</p>` tails. -/
def spanThenP (strict : Bool) (r : Str) : Bool :=
  startsW (str "</span>") r &&
    (let a := r.drop 7
     let w := a.takeWhile pyIsSpace
     (!strict || w ≠ []) && startsW (str "</p>") (a.drop w.length))

/-- Python `br_span_p_pattern.search`: `<br[^>]*>\s*</span>\s*</p>`. -/
def searchBrSpanP : Str → Bool
  | [] => false
  | c :: rest =>
      (match brThenGt (c :: rest) with
       | some r => spanThenP false r
       | none => false) ||
      searchBrSpanP rest

/-- Python `br_span_space_p_pattern.search`: `<br[^>]*>\s*</span>\s+</p>`. -/
def searchBrSpanSpaceP : Str → Bool
  | [] => false
  | c :: rest =>
      (match brThenGt (c :: rest) with
       | some r => spanThenP true r
       | none => false) ||
      searchBrSpanSpaceP rest

/-- First match of `re.split(r'(</span>\s+</p>)', s)`: leftmost position where
`</span>`, a non-empty whitespace run, then `</p>` occur; returns the text
before the match, the whitespace run, and the text after the match. -/
def splitSpanSpacePGo (acc : Str) : Str → Option (Str × Str × Str)
  | [] => none
  | c :: rest =>
      if startsW (str "</span>") (c :: rest) then
        let a := (c :: rest).drop 7
        let w := a.takeWhile pyIsSpace
        if w ≠ [] && startsW (str "</p>") (a.drop w.length) then
          some (acc.reverse, w, (a.drop w.length).drop 4)
        else splitSpanSpacePGo (c :: acc) rest
      else splitSpanSpacePGo (c :: acc) rest

/-- Entry point of the `re.split` first-match decomposition. -/
def splitSpanSpaceP (l : Str) : Option (Str × Str × Str) := splitSpanSpacePGo [] l

/-- The `non_indenting_tags` list of the formatter. -/
def nonIndentingTags : List Str := [str "br", str "hr", str "img", str "input", str "link", str "meta"]

/-- The `minimal_indent_tags` list of the formatter. -/
def minimalIndentTags : List Str := [str "span", str "p"]

/-- Python `re.search(f'<{tag}[^>]*>', line)` as a boolean. -/
def searchLitTag (t : Str) : Str → Bool
  | [] => false
  | c :: rest =>
      (startsW ('<' :: t) (c :: rest) && (afterFirstGt ((c :: rest).drop (t.length + 1))).isSome) ||
      searchLitTag t rest

/-- Anchored match of `</?{tag}[^>]*>`; the optional `/` is taken greedily and
cannot backtrack to a success without it because tags start with a letter. -/
def parseSlashTagC (t : Str) (l : Str) : Option (Unit × Nat) :=
  match l with
  | '<' :: rest =>
      let (slash, rest2) := match rest with
        | '/' :: r => (1, r)
        | _ => (0, rest)
      if startsW t rest2 then
        let afterTag := rest2.drop t.length
        let mid := afterTag.takeWhile (fun x => x ≠ '>')
        match afterTag.drop mid.length with
        | '>' :: _ => some ((), 1 + slash + t.length + mid.length + 1)
        | _ => none
      else none
  | _ => none

/-- Python `_contains_only_non_indenting_tags`. -/
def containsOnlyNonIndentingTags (line : Str) : Bool :=
  nonIndentingTags.any fun t =>
    searchLitTag t line &&
      (let other := pyStrip (subT (parseSlashTagC t) line)
       other = [] || other = str "</span>" || other = str "</p>" ||
         containsSub (str "</span>") other)

/-- Anchored match of the post-pass pattern `(</[^>]+>)(\s*)(</[^>]+>)`;
returns the offset of group 3 (`match.start(3)` relative to this position). -/
def findAdjAt (l : Str) : Option Nat :=
  match genParseCloseC l with
  | some k1 =>
      let after := l.drop k1
      let w := after.takeWhile pyIsSpace
      match genParseCloseC (after.drop w.length) with
      | some _ => some (k1 + w.length)
      | none => none
  | none => none

/-- Leftmost search for the post-pass pattern; returns the absolute offset of
`match.start(3)`. -/
def findAdjGo (i : Nat) : Str → Option Nat
  | [] => none
  | c :: rest =>
      match findAdjAt (c :: rest) with
      | some q => some (i + q)
      | none => findAdjGo (i + 1) rest

/-- Python `multiple_closing_tags_pattern.search`, exposing `match.start(3)`. -/
def findAdjSearch (l : Str) : Option Nat := findAdjGo 0 l

/-- Fuelled worker for `adjSplitLoop`; every iteration drops at least three
characters (a full `</x>` plus whitespace), so a fuel of `length + 1` never
runs out. -/
def adjSplitLoopF : Nat → Str → List Str
  | 0, l => if l = [] then [] else [l]
  | fuel + 1, l =>
      match findAdjSearch l with
      | some q => l.take q :: adjSplitLoopF fuel (l.drop q)
      | none => if l = [] then [] else [l]

/-- The part-splitting `while` loop of `_postprocess_closing_tags`: repeatedly
cut the line at `match.start(3)` and continue on the remainder; the final
remainder is kept if non-empty. -/
def adjSplitLoop (l : Str) : List Str := adjSplitLoopF (l.length + 1) l

/-- Python `len(line) - len(line.lstrip())`. -/
def countLeadingWs (l : Str) : Nat := l.length - (pyLstrip l).length

/-- The emit loop over split parts: part `j` is re-indented at the base indent,
or at one step less when `j > 0` and the stripped part starts with `</`. -/
def renderAdjGo (sz base : Nat) (j : Nat) : List Str → List Str
  | [] => []
  | p :: rest =>
      let ind := if 0 < j && startsW (str "</") (pyStrip p) then max 0 (base - sz) else base
      (spaces ind ++ pyStrip p) :: renderAdjGo sz base (j + 1) rest

/-- The per-line transform applied by the post-pass to lines outside embedded
Perl regions (marker lines pass through unchanged). -/
def processLinePost (sz : Nat) (line : Str) : List Str :=
  if pyStrip line = str "<%" || pyStrip line = str "%>" then [line]
  else if (findAdjSearch line).isSome then
    renderAdjGo sz (countLeadingWs line) 0 (adjSplitLoop line)
  else [line]

/-- The full `_postprocess_closing_tags` fold with the in-Perl-block flag. -/
def postprocessGo (sz : Nat) (inPerl : Bool) : List Str → List Str
  | [] => []
  | line :: rest =>
      if pyStrip line = str "<%" then line :: postprocessGo sz true rest
      else if pyStrip line = str "%>" then line :: postprocessGo sz false rest
      else if inPerl then line :: postprocessGo sz inPerl rest
      else if (findAdjSearch line).isSome then
        renderAdjGo sz (countLeadingWs line) 0 (adjSplitLoop line) ++ postprocessGo sz inPerl rest
      else line :: postprocessGo sz inPerl rest

/-- Python `_postprocess_closing_tags` on the output-line list. -/
def postprocessClosingTags (sz : Nat) (lines : List Str) : List Str :=
  postprocessGo sz false lines

/-- The per-line state step of the fallback heuristic Perl formatter inside
`format_perl_code` (the comment and non-comment branches of the source emit the
same line, so they are modelled once). -/
def fbGo (sz : Nat) (cur : Nat) : List Str → List Str
  | [] => []
  | line :: rest =>
      if pyStrip line = [] then fbGo sz cur rest
      else
        let s := pyLstrip line
        let cur1 := if startsW (str "\x7d") s || startsW (str ");") s then max sz (cur - sz) else cur
        let cur2 :=
          if endsW (str "\x7b") s || endsW (str "(\x7b") s || endsW (str "sub \x7b") s ||
             endsW (str "= \x7b") s || endsW (str "=> \x7b") s ||
             (endsW (str "(") s && !startsW (str ")") s) then cur1 + sz else cur1
        let cur3 := if endsW (str ");") s && !startsW (str "(") s then max sz (cur2 - sz) else cur2
        (spaces cur1 ++ s) :: fbGo sz cur3 rest

/-- The fallback heuristic formatter of `format_perl_code` (perltidy failed):
starts at one indent step and joins the re-indented non-empty lines. -/
def fallbackPerlFormat (sz : Nat) (lines : List Str) : Str :=
  joinNL (fbGo sz sz lines)

/-- Leftmost occurrence of a literal pattern, splitting the text into the part
before the match and the part after it. -/
def splitFirstSubGo (pat : Str) (acc : Str) : Str → Option (Str × Str)
  | [] => none
  | c :: rest =>
      if startsW pat (c :: rest) then some (acc.reverse, (c :: rest).drop pat.length)
      else splitFirstSubGo pat (c :: acc) rest

/-- Leftmost occurrence of a (non-empty) literal pattern. -/
def splitFirstSub (pat l : Str) : Option (Str × Str) := splitFirstSubGo pat [] l

/-- First `<%` region of the document: text before `<%`, the interior up to the
first following `%>`, and the text after `%>` (the lazy group of
`<%\s*(.*?)\s*%>` with `re.DOTALL` always ends at the first `%>`). -/
def findEmbeddedRegion (l : Str) : Option (Str × Str × Str) :=
  match splitFirstSub (str "<%") l with
  | none => none
  | some (before, rest) =>
      match splitFirstSub (str "%>") rest with
      | none => none
      | some (interior, after) => some (before, interior, after)

/-- Replacement for one embedded region, given the (already trimmed) regex
group.  `tidy` models `_run_perltidy` (which returns the stripped perltidy
output, or `None` on any failure); `none` selects the fallback heuristic. -/
def replRegion (tidy : Str → Option Str) (sz : Nat) (g : Str) : Str :=
  if g = [] then str "<%\n%>"
  else if (splitLines g).length ≤ 1 then str "<% " ++ pyStrip g ++ str " %>"
  else
    match tidy g with
    | some t => str "<%\n" ++ t ++ str "\n%>"
    | none => str "<%\n" ++ fallbackPerlFormat sz (splitLines g) ++ str "\n%>"

/-- Python `_preprocess_embedded_perl`: `pattern.sub(format_perl_code, content)`
for `<%\s*(.*?)\s*%>` with `re.DOTALL` (the group is the interior trimmed of
whitespace on both sides). -/
def preprocessEmbeddedF (tidy : Str → Option Str) (sz : Nat) : Nat → Str → Str
  | 0, l => l
  | fuel + 1, l =>
      match findEmbeddedRegion l with
      | none => l
      | some (b, i, a) => b ++ replRegion tidy sz (pyStrip i) ++ preprocessEmbeddedF tidy sz fuel a

/-- Entry point of the embedded-Perl substitution; every region consumes at
least four characters of the document, so a fuel of `length + 1` never runs
out. -/
def preprocessEmbedded (tidy : Str → Option Str) (sz : Nat) (l : Str) : Str :=
  preprocessEmbeddedF tidy sz (l.length + 1) l

/-- The mutable attributes of `MojoTemplateFormatter` that the line pass reads
and writes (`indent_size` is fixed per run and passed separately). -/
structure FmtState where
  currentIndent : Nat
  outputLines : List Str
  perlBlockStack : List Nat
  htmlTagStack : List Str
  inFormBlock : Bool
  inContentBlock : Bool
  deriving Repr, DecidableEq

/-- The fresh state built at the top of `format`. -/
def initState : FmtState :=
  { currentIndent := 0, outputLines := [], perlBlockStack := [],
    htmlTagStack := [], inFormBlock := false, inContentBlock := false }

/-- Python `list.pop()` on the directive stack (pops the last element). -/
def popLast (l : List Nat) : Option (Nat × List Nat) :=
  match l.reverse with
  | [] => none
  | x :: rest => some (x, rest.reverse)

/-- Python `list.pop()` on the tag stack. -/
def popLastStr (l : List Str) : Option (Str × List Str) :=
  match l.reverse with
  | [] => none
  | x :: rest => some (x, rest.reverse)

/-- Python `_is_mojo_command_line`. -/
def isMojoCommandLine (line : Str) : Bool :=
  match pyLstrip line with
  | [] => false
  | c :: _ => c = '%'

/-- The cosmetic normalisation at the top of `_process_mojo_command_line`:
insert one space after a leading `%` that is directly followed by a character
other than `=`, `#`, `%`, or whitespace. -/
def mojoNormalize (t : Str) : Str :=
  match t with
  | '%' :: c :: rest =>
      if c ≠ '=' && c ≠ '#' && c ≠ '%' && !pyIsSpace c then '%' :: ' ' :: c :: rest
      else '%' :: c :: rest
  | _ => t

/-- The state transition of `_process_mojo_command_line` on the normalised
stripped line, as a pure function of the fields the method reads: result is
(indent the line is emitted at, new indent, new directive stack, new
in-form-block flag, new in-content-block flag).  Every branch of the source
emits exactly one line. -/
def mojoStep (sz : Nat) (t : Str) (cur : Nat) (perl : List Nat) (fb cb : Bool) :
    Nat × Nat × List Nat × Bool × Bool :=
  if searchContentBlockStart t then (cur, cur + sz, perl, fb, true)
  else if searchFormBlockStart t then (cur, cur + sz, perl, true, cb)
  else if searchPerlBlockStart t then (cur, cur + sz, perl ++ [cur], fb, cb)
  else if searchPerlBlockEnd t then
    match popLast perl with
    | some (n, rest) => (n, n, rest, fb, cb)
    | none => (cur, cur, perl, fb, cb)
  else if searchPerlEnd t then
    if fb && perl = [] then (max 0 (cur - sz), max 0 (cur - sz), perl, false, cb)
    else if cb && perl = [] then (max 0 (cur - sz), max 0 (cur - sz), perl, fb, false)
    else
      match popLast perl with
      | some (n, rest) => (n, n, rest, fb, cb)
      | none => (cur, cur, perl, fb, cb)
  else (cur, cur, perl, fb, cb)

/-- Python `_process_mojo_command_line` on the normalised stripped line. -/
def processMojoStripped (sz : Nat) (t : Str) (s : FmtState) : FmtState :=
  match mojoStep sz t s.currentIndent s.perlBlockStack s.inFormBlock s.inContentBlock with
  | (k, cur, perl, fb, cb) =>
      { currentIndent := cur,
        outputLines := s.outputLines ++ [spaces k ++ t],
        perlBlockStack := perl,
        htmlTagStack := s.htmlTagStack,
        inFormBlock := fb,
        inContentBlock := cb }

/-- Python `_process_mojo_command_line`. -/
def processMojoCommandLine (sz : Nat) (s : FmtState) (line : Str) : FmtState :=
  processMojoStripped sz (mojoNormalize (pyLstrip line)) s

/-- The closing-tag loop of the generic markup branch.  `none` models the
`ValueError` that `list.remove(tag)` raises when the stack matched the name
only case-insensitively. -/
def closersLoop (sz : Nat) : FmtState → List Str → Option FmtState
  | s, [] => some s
  | s, tag :: rest =>
      if pyLower tag ∈ nonIndentingTags then closersLoop sz s rest
      else if pyLower tag ∈ s.htmlTagStack.map pyLower then
        if tag ∈ s.htmlTagStack then
          closersLoop sz
            { s with htmlTagStack := removeFirst tag s.htmlTagStack,
                     currentIndent :=
                       if pyLower tag ∈ minimalIndentTags then
                         max 0 (s.currentIndent - sz / 2)
                       else max 0 (s.currentIndent - sz) }
            rest
        else none
      else closersLoop sz s rest

/-- The opening-tag loop of the generic markup branch. -/
def openersLoop (sz : Nat) (selfs : List Str) : FmtState → List Str → FmtState
  | s, [] => s
  | s, tag :: rest =>
      if pyLower tag ∈ nonIndentingTags then openersLoop sz selfs s rest
      else if tag ∈ selfs then openersLoop sz selfs s rest
      else
        openersLoop sz selfs
          { s with htmlTagStack := s.htmlTagStack ++ [tag],
                   currentIndent :=
                     s.currentIndent +
                       (if pyLower tag ∈ minimalIndentTags then sz / 2 else sz) }
          rest

/-- The paragraph-base-indent scan of the `<br></span></p>` branch (first stack
index holding a `p`, times the indent size; an index of zero falls through to
the `current - 2*size` fallback exactly as in the source). -/
def findPIdx : List Str → Nat → Option Nat
  | [], _ => none
  | x :: rest, i => if pyLower x = str "p" then some i else findPIdx rest (i + 1)

/-- Python base-indent computation of the `<br></span></p>` branch. -/
def brBaseIndent (sz : Nat) (s : FmtState) : Nat :=
  let b := match findPIdx s.htmlTagStack 0 with
    | some i => i * sz
    | none => 0
  if b = 0 then max 0 (s.currentIndent - 2 * sz) else b

/-- The `<br></span></p>` branch of `_process_html_line`. -/
def brSpanPBranch (sz : Nat) (s : FmtState) (t : Str) : FmtState :=
  let base := brBaseIndent sz s
  let formatted :=
    if searchBrSpanSpaceP t then
      match splitSpanSpaceP t with
      | some (a, w, _) => spaces base ++ a ++ str "</span>" ++ w ++ str "</p>"
      | none => spaces base ++ t
    else spaces base ++ t
  let s1 := { s with outputLines := s.outputLines ++ [formatted] }
  let s2 :=
    if str "span" ∈ s1.htmlTagStack then
      { s1 with htmlTagStack := removeFirst (str "span") s1.htmlTagStack }
    else s1
  let s3 :=
    if str "p" ∈ s2.htmlTagStack then
      { s2 with htmlTagStack := removeFirst (str "p") s2.htmlTagStack }
    else s2
  { s3 with currentIndent := base }

/-- The working-indent loop of the `<br>`-with-closing-tags branch (the stack
is not mutated while this runs). -/
def brCloseLevelLoop (sz : Nat) (stackLower : List Str) : Nat → List Str → Nat
  | lvl, [] => lvl
  | lvl, tag :: rest =>
      if pyLower tag ∈ minimalIndentTags && pyLower tag ∈ stackLower then
        brCloseLevelLoop sz stackLower (max 0 (lvl - sz / 2)) rest
      else brCloseLevelLoop sz stackLower lvl rest

/-- The stack-removal loop of the `<br>`-with-closing-tags branch (`none`
models the `ValueError` of a case-insensitive-only match). -/
def brRemoveLoop : FmtState → List Str → Option FmtState
  | s, [] => some s
  | s, tag :: rest =>
      if pyLower tag ∈ s.htmlTagStack.map pyLower then
        if tag ∈ s.htmlTagStack then
          brRemoveLoop { s with htmlTagStack := removeFirst tag s.htmlTagStack } rest
        else none
      else brRemoveLoop s rest

/-- The `<br>`-with-closing-tags branch of `_process_html_line`. -/
def brCloseBranch (sz : Nat) (s : FmtState) (t : Str) : Option FmtState :=
  let lvl := brCloseLevelLoop sz (s.htmlTagStack.map pyLower) s.currentIndent (closeTagFindAll t)
  brRemoveLoop { s with outputLines := s.outputLines ++ [spaces lvl ++ t] } (closeTagFindAll t)

/-- The blind-pop loop of the multiple-closing-tags branch. -/
def multiPopLoop (sz : Nat) : FmtState → Nat → FmtState
  | s, 0 => s
  | s, m + 1 =>
      match popLastStr s.htmlTagStack with
      | some (tag, rest) =>
          multiPopLoop sz
            { s with htmlTagStack := rest,
                     currentIndent :=
                       if pyLower tag ∈ nonIndentingTags then s.currentIndent
                       else max 0 (s.currentIndent - sz) }
            m
      | none => multiPopLoop sz s m

/-- The multiple-closing-tags branch of `_process_html_line`. -/
def multiCloseBranch (sz : Nat) (s : FmtState) (t : Str) : FmtState :=
  let closeCount := (closeTagFindAll t).length
  let s1 :=
    if 1 < closeCount && s.htmlTagStack ≠ [] then
      multiPopLoop sz s (min closeCount s.htmlTagStack.length)
    else s
  { s1 with outputLines := s1.outputLines ++ [spaces s1.currentIndent ++ t] }

/-- The generic (fall-through) branch of `_process_html_line`. -/
def genericBranch (sz : Nat) (s : FmtState) (t : Str) : Option FmtState :=
  match closersLoop sz s (closeTagFindAll t) with
  | none => none
  | some s1 =>
      some (openersLoop sz (selfCloseFindAll t)
        { s1 with outputLines := s1.outputLines ++ [spaces s1.currentIndent ++ t] }
        (openTagFindAll t))

/-- Python `_process_html_line`. -/
def processHtmlLine (sz : Nat) (s : FmtState) (line : Str) : Option FmtState :=
  if startsW (str "<%") (pyStrip line) then
    some { s with outputLines := s.outputLines ++ [line] }
  else if pyStrip line = str "%>" then
    some { s with outputLines := s.outputLines ++ [str "%>"] }
  else
    let t := pyLstrip line
    if searchBrSpanP t || searchBrSpanSpaceP t then some (brSpanPBranch sz s t)
    else if searchBrClose t then brCloseBranch sz s t
    else if containsOnlyNonIndentingTags t then
      some { s with outputLines := s.outputLines ++ [spaces s.currentIndent ++ t] }
    else if searchTwoCloseTags t then some (multiCloseBranch sz s t)
    else genericBranch sz s t

/-- The main line loop of `format` (blank lines dropped or kept per the
`remove_blank_lines` flag). -/
def runLines (sz : Nat) (removeBlank : Bool) (s : FmtState) : List Str → Option FmtState
  | [] => some s
  | line :: rest =>
      if pyStrip line = [] then
        if removeBlank then runLines sz removeBlank s rest
        else runLines sz removeBlank { s with outputLines := s.outputLines ++ [[]] } rest
      else if isMojoCommandLine line then
        runLines sz removeBlank (processMojoCommandLine sz s line) rest
      else
        match processHtmlLine sz s line with
        | some s1 => runLines sz removeBlank s1 rest
        | none => none

/-- The state right after the line-by-line pass of `format` (before the
closing-tag post-pass, which does not read or write the state). -/
def formatLinePass (tidy : Str → Option Str) (sz : Nat) (removeBlank : Bool)
    (content : Str) : Option FmtState :=
  runLines sz removeBlank initState (splitLines (preprocessEmbedded tidy sz content))

/-- Python `MojoTemplateFormatter.format`; `none` models an escaping exception. -/
def format (tidy : Str → Option Str) (sz : Nat) (removeBlank : Bool)
    (content : Str) : Option Str :=
  match formatLinePass tidy sz removeBlank content with
  | some s => some (joinNL (postprocessClosingTags sz s.outputLines))
  | none => none

/-- A perltidy oracle for inputs that never reach perltidy (or for an
environment where perltidy always fails and the fallback formatter runs). -/
def tidyNone : Str → Option Str := fun _ => none

/-- Default configuration (`indent_size = 4`, blank lines dropped). -/
def format4 (content : String) : Option Str := format tidyNone 4 true (str content)

/-- Line-pass state under the default configuration. -/
def linePass4 (content : String) : Option FmtState :=
  formatLinePass tidyNone 4 true (str content)

/-- A markup-tag occurrence, for the balancedness predicate of the
balanced-nesting claim. -/
inductive TagTok where
  | openT (n : Str)
  | closeT (n : Str)
  | selfT (n : Str)
  deriving Repr, DecidableEq

/-- Combined anchored tag parse, in the priority close / self-closing / open
(the three forms are mutually exclusive at a given position). -/
def parseAnyTag (l : Str) : Option (TagTok × Nat) :=
  match parseCloseTagC l with
  | some (n, k) => some (.closeT n, k)
  | none =>
      match parseSelfCloseC l with
      | some (n, k) => some (.selfT n, k)
      | none =>
          match parseOpenTagC l with
          | some (n, k) => some (.openT n, k)
          | none => none

/-- All tag occurrences of a line, in text order. -/
def tagToks (l : Str) : List TagTok := scanT parseAnyTag l

/-- Document token for the balancedness predicate: a control-directive opener
or closer, or a markup opener or closer. -/
inductive DocTok where
  | dOpenT
  | dCloseT
  | mOpenT (n : Str)
  | mCloseT (n : Str)
  deriving Repr, DecidableEq

/-- Modelled from the spec: the nesting-relevant tokens of one input line, for
the balanced-nesting hypothesis ("every control-directive opener has a
matching closer and every markup tag opener has a matching closer in document
order").  Directive lines are classified by the program's own patterns;
markup lines contribute their tag occurrences (self-closing tags need no
closer). -/
def lineDocToks (line : Str) : List DocTok :=
  if pyStrip line = [] then []
  else if isMojoCommandLine line then
    let t := mojoNormalize (pyLstrip line)
    if searchContentBlockStart t then []
    else if searchFormBlockStart t then []
    else if searchPerlBlockStart t then [.dOpenT]
    else if searchPerlBlockEnd t then [.dCloseT]
    else if searchPerlEnd t then [.dCloseT]
    else []
  else
    (tagToks (pyLstrip line)).filterMap fun tk =>
      match tk with
      | .openT n => some (.mOpenT n)
      | .closeT n => some (.mCloseT n)
      | .selfT _ => none

/-- One step of the balance checker: a stack entry is `none` for a directive
block and `some name` (lower-cased) for a markup element. -/
def balStep (st : Option (List (Option Str))) (tk : DocTok) : Option (List (Option Str)) :=
  match st with
  | none => none
  | some stack =>
      match tk with
      | .dOpenT => some (none :: stack)
      | .mOpenT n => some (some (pyLower n) :: stack)
      | .dCloseT =>
          match stack with
          | none :: rest => some rest
          | _ => none
      | .mCloseT n =>
          match stack with
          | some m :: rest => if m = pyLower n then some rest else none
          | _ => none

/-- Modelled from the spec: the balanced-nesting hypothesis of the invariant
claim — every opener is matched by a later closer of the same kind (and, for
markup, the same case-insensitive name), in well-nested document order. -/
def balancedDoc (content : Str) : Bool :=
  match ((splitLines content).flatMap lineDocToks).foldl balStep (some []) with
  | some [] => true
  | _ => false

/-- Restricted token language for the amended balanced-nesting theorem. -/
inductive Tok where
  | mOpen (n : Str)
  | mClose (n : Str)
  | dOpen
  | dClose
  deriving Repr, DecidableEq

/-- Rendering of a restricted token as an input line. -/
def renderTok : Tok → Str
  | .mOpen n => '<' :: n ++ ['>']
  | .mClose n => '<' :: '/' :: n ++ ['>']
  | .dOpen => str "% if (1) \x7b"
  | .dClose => str "% \x7d"

/-- Well-nested sequences over the restricted token language (tag names drawn
from the representative set {div, span}: one full-step and one half-step
tag). -/
inductive BalToks : List Tok → Prop where
  | nil : BalToks []
  | app {a b : List Tok} : BalToks a → BalToks b → BalToks (a ++ b)
  | mwrap {w : List Tok} (n : Str) (hn : n = str "div" ∨ n = str "span") :
      BalToks w → BalToks (Tok.mOpen n :: w ++ [Tok.mClose n])
  | dwrap {w : List Tok} : BalToks w → BalToks (Tok.dOpen :: w ++ [Tok.dClose])

/-- Name discipline of the restricted token language. -/
def tokOK : Tok → Prop
  | .mOpen n => n = str "div" ∨ n = str "span"
  | .mClose n => n = str "div" ∨ n = str "span"
  | .dOpen => True
  | .dClose => True

/-- All entries of the markup-tag stack come from the restricted name set. -/
def goodStack (s : FmtState) : Prop :=
  ∀ e ∈ s.htmlTagStack, e = str "div" ∨ e = str "span"

/-- Python `' ' * n` for a possibly negative count (`''` when negative). -/
def spacesZ (n : Int) : Str := spaces n.toNat

/-- Modelled from the spec: the fallback heuristic formatter exactly as the
claim states it — the first decrement is a plain one-step decrease (no floor),
the increase fires whenever the line ends with an opening parenthesis (no
qualifier on the first character), and the final decrement is a plain one-step
decrease guarded by not starting with `(`.  Indents live in `Int` because the
stated rules admit negative values (Python renders those as no indent). -/
def fbStatedGo (sz : Nat) (cur : Int) : List Str → List Str
  | [] => []
  | line :: rest =>
      if pyStrip line = [] then fbStatedGo sz cur rest
      else
        let s := pyLstrip line
        let cur1 := if startsW (str "\x7d") s || startsW (str ");") s then cur - sz else cur
        let cur2 :=
          if endsW (str "\x7b") s || endsW (str "(\x7b") s || endsW (str "sub \x7b") s ||
             endsW (str "= \x7b") s || endsW (str "=> \x7b") s || endsW (str "(") s
          then cur1 + sz else cur1
        let cur3 := if endsW (str ");") s && !startsW (str "(") s then cur2 - sz else cur2
        (spacesZ cur1 ++ s) :: fbStatedGo sz cur3 rest

/-- The fallback heuristic as the claim literally states it. -/
def fallbackPerlStated (sz : Nat) (lines : List Str) : Str :=
  joinNL (fbStatedGo sz sz lines)

/-- Modelled from the spec (amended): a decrement never goes below one indent
step. -/
def oneStepDown (sz cur : Nat) : Nat := max sz (cur - sz)

/-- Modelled from the spec (amended claim): as the stated rules, except that
both decrements floor at one indent step and the opening-parenthesis increase
additionally requires that the line does not start with `)`. -/
def fbAmendedGo (sz : Nat) (cur : Nat) : List Str → List Str
  | [] => []
  | line :: rest =>
      if pyStrip line = [] then fbAmendedGo sz cur rest
      else
        let s := pyLstrip line
        let cur1 := if startsW (str "\x7d") s || startsW (str ");") s then oneStepDown sz cur else cur
        let cur2 :=
          if endsW (str "\x7b") s || endsW (str "(\x7b") s || endsW (str "sub \x7b") s ||
             endsW (str "= \x7b") s || endsW (str "=> \x7b") s ||
             (endsW (str "(") s && !startsW (str ")") s)
          then cur1 + sz else cur1
        let cur3 := if endsW (str ");") s && !startsW (str "(") s then oneStepDown sz cur2 else cur2
        (spaces cur1 ++ s) :: fbAmendedGo sz cur3 rest

/-- The fallback heuristic as amended. -/
def fallbackPerlAmended (sz : Nat) (lines : List Str) : Str :=
  joinNL (fbAmendedGo sz sz lines)

/-- File-system model for the temporary-file claims: a map from paths to file
contents. -/
def TidyFS : Type := String → Option Str

/-- The empty file system. -/
def fsEmpty : TidyFS := fun _ => none

/-- Create or overwrite a file. -/
def fsWrite (fs : TidyFS) (p : String) (c : Str) : TidyFS :=
  fun q => if q = p then some c else fs q

/-- Python `os.unlink`. -/
def fsRemove (fs : TidyFS) (p : String) : TidyFS :=
  fun q => if q = p then none else fs q

/-- Python `os.path.exists`. -/
def fsHas (fs : TidyFS) (p : String) : Bool := (fs p).isSome

/-- Read a file (only called on the success path, where it exists). -/
def fsRead (fs : TidyFS) (p : String) : Str := (fs p).getD []

/-- Outcome of one perltidy child-process invocation: whether `subprocess.run`
raised (the only exception source inside the `try`), the exit code, and
whether/what the tool wrote to the output path. -/
structure TidyRun where
  raises : Bool
  exitCode : Int
  outputWritten : Bool
  outputContent : Str

/-- A child-process invocation record (the arguments `_run_perltidy` passes to
`subprocess.run`). -/
structure SubprocessCall where
  cmd : List String
  captureOutput : Bool
  text : Bool
  timeout : Option Nat
  deriving Repr, DecidableEq

/-- The perltidy command line built in `_run_perltidy`. -/
def perltidyCmd (sz : Nat) (inPath outPath : String) : List String :=
  ["perltidy", "-i=" ++ toString sz, "-ci=" ++ toString sz, "-l=120", "-pt=2",
   "-bt=2", "-sbt=2", "-ce", "-nbl", "-nsfs", inPath, "-o", outPath]

/-- The call `_run_perltidy` makes:
`subprocess.run(cmd, capture_output=True, text=True)` — no `timeout=` argument
is passed. -/
def perltidyInvocation (sz : Nat) (inPath outPath : String) : SubprocessCall :=
  { cmd := perltidyCmd sz inPath outPath, captureOutput := true, text := true,
    timeout := none }

/-- Python `_run_perltidy` over the file-system model: create the temporary
input file, run the tool (modelled by `r`), and follow the source's exit
paths.  Cleanup (`os.unlink`) happens only after a successful read; the
`except` clause returns `None` without touching the file system. -/
def runPerltidyModel (fs : TidyFS) (inPath : String) (code : Str) (r : TidyRun) :
    Option Str × TidyFS :=
  let outPath := inPath ++ ".tidy"
  let fs1 := fsWrite fs inPath code
  if r.raises then (none, fs1)
  else
    let fs2 := if r.outputWritten then fsWrite fs1 outPath r.outputContent else fs1
    if r.exitCode ≠ 0 then (none, fs2)
    else if !fsHas fs2 outPath then (none, fs2)
    else
      let content := fsRead fs2 outPath
      let fs3 := fsRemove fs2 inPath
      let fs4 := if fsHas fs3 outPath then fsRemove fs3 outPath else fs3
      (some (pyStrip content), fs4)

/-- Input-side restriction for the amended idempotence theorem: the line is a
directive line, contains no embedded-code start delimiter, and contains no
pair of adjacent closing tags (the post-pass pattern finds nothing). -/
def plainDirectiveLine (line : Str) : Bool :=
  isMojoCommandLine line && !containsSub (str "<%") line && (findAdjSearch line).isNone

/-- Does the document contain a `<% ... %>` region whose (trimmed) interior
spans more than one line?  (The condition that routes a region to perltidy.) -/
def hasMultilineRegionF : Nat → Str → Bool
  | 0, _ => false
  | fuel + 1, l =>
      match findEmbeddedRegion l with
      | none => false
      | some (_, i, a) =>
          1 < (splitLines (pyStrip i)).length || hasMultilineRegionF fuel a

/-- Entry point of the multi-line-region test. -/
def hasMultilineRegion (l : Str) : Bool := hasMultilineRegionF (l.length + 1) l

/-!  Theorems. -/

/-- C9: on the three-line input `% if (1) {` / `<p>hi</p>` / `% }` with indent
step 4 and default options, `format` returns exactly `% if (1) {`,
`    <p>hi</p>` (four spaces), and `% }` (indent zero), joined by newlines. -/
theorem c9_end_to_end_example :
    format4 "% if (1) \x7b\n<p>hi</p>\n% \x7d" =
      some (str "% if (1) \x7b\n    <p>hi</p>\n% \x7d") := by
  rfl

/-- C4: the claim that `format` never raises is wrong on the code: on the input
`<DIV>` / `</div>` the closing-tag handler passes its case-insensitive
membership test and then calls `html_tag_stack.remove('div')` on a stack
holding `'DIV'`, which raises `ValueError` (modelled by `none`). -/
theorem c4_crash_on_case_mismatch : format4 "<DIV>\n</div>" = none := by
  rfl

/-- C2 counterexample: the input `<div>` / `<br></br></div>` is balanced (every
opener, directive or markup, has a matching closer in document order), yet the
current indent after the line-by-line pass is 4, not 0 — the
`<br>`-with-closing-tags branch removes `div` from the tag stack without
decrementing the indent. -/
theorem c2_counterexample :
    balancedDoc (str "<div>\n<br></br></div>") = true ∧
      (linePass4 "<div>\n<br></br></div>").map FmtState.currentIndent = some 4 := by
  exact ⟨rfl, rfl⟩

/-- C3 counterexample: the input `<p>` / `<span>` / `<br></span> </p>` has no
embedded multi-line code block, yet formatting its formatted output changes it
again (the post-pass splits `</p>` onto its own line, and the second run then
re-indents `<br></span>` and `</p>` by the half-step `span`/`p` rules). -/
theorem c3_counterexample :
    hasMultilineRegion (str "<p>\n<span>\n<br></span> </p>") = false ∧
      ((format4 "<p>\n<span>\n<br></span> </p>").bind (format tidyNone 4 true)) ≠
        format4 "<p>\n<span>\n<br></span> </p>" := by
  exact ⟨rfl, by decide⟩

/-- C6 counterexample: the fallback heuristic does not behave exactly as the
claim states it.  On the fragment `}` / `)(` / `x` the code keeps `}` at one
indent step (its decrements floor at `indent_size`, not zero) and does not
increase the indent after `)(` (the opening-parenthesis increase requires the
line not to start with `)`), while the claim's stated rules emit `}` at column
zero and indent `x` by an extra step. -/
theorem c6_counterexample :
    fallbackPerlFormat 4 [str "\x7d", str ")(", str "x"] ≠
      fallbackPerlStated 4 [str "\x7d", str ")(", str "x"] := by
  decide

theorem fbGo_eq_amended (sz : Nat) :
    ∀ (lines : List Str) (cur : Nat), fbGo sz cur lines = fbAmendedGo sz cur lines := by
  intro lines
  induction lines with
  | nil => intro cur; rfl
  | cons line rest ih =>
      intro cur
      by_cases h : pyStrip line = []
      · simp only [fbGo, fbAmendedGo, if_pos h]
        exact ih cur
      · simp only [fbGo, fbAmendedGo, if_neg h, oneStepDown]
        rw [ih]

/-- C6 amended: the fallback heuristic behaves as the claim states it once the
two corrections are made — every decrement floors at one indent step (never
below `indent_size`), and the opening-parenthesis increase additionally
requires that the trimmed line does not start with `)`. -/
theorem c6_fallback_matches_amended_spec (sz : Nat) (lines : List Str) :
    fallbackPerlFormat sz lines = fallbackPerlAmended sz lines := by
  unfold fallbackPerlFormat fallbackPerlAmended
  exact congrArg joinNL (fbGo_eq_amended sz lines sz)

/-- C7 counterexample: when perltidy exits non-zero, `_run_perltidy` returns
`None` without deleting the temporary input file, so the file remains — the
claim that both temporaries are removed on every exit path is wrong on the
code. -/
theorem c7_counterexample :
    fsHas (runPerltidyModel fsEmpty "/tmp/in" (str "x;\ny;")
      { raises := false, exitCode := 1, outputWritten := false, outputContent := [] }).2
      "/tmp/in" = true := by
  rfl

/-- C8 counterexample: the child-process call `_run_perltidy` makes carries no
timeout at all (`subprocess.run(cmd, capture_output=True, text=True)`), so no
bounded wait is enforced. -/
theorem c8_counterexample :
    (perltidyInvocation 4 "/tmp/in" "/tmp/in.tidy").timeout = none := by
  rfl

theorem tidyPath_ne (p : String) : p ++ ".tidy" ≠ p := by
  intro h
  have hlen := congrArg String.length h
  rw [String.length_append] at hlen
  have h5 : ".tidy".length = 5 := rfl
  omega

/-- C7 amended: the two temporary files are both removed only on the success
path (zero exit status and output file present); on every failure path — the
child process raising, a non-zero exit status, or the output file missing
after the run — `_run_perltidy` returns `None`, the temporary input file
remains on disk, and an output file the tool did write remains as well. -/
theorem c7_cleanup_success_only (fs : TidyFS) (inPath : String) (code : Str)
    (r : TidyRun) (hr : r.raises = false) (he : r.exitCode = 0)
    (hw : r.outputWritten = true) :
    fsHas (runPerltidyModel fs inPath code r).2 inPath = false ∧
    fsHas (runPerltidyModel fs inPath code r).2 (inPath ++ ".tidy") = false ∧
    ∀ r2 : TidyRun,
      r2.raises = true ∨ r2.exitCode ≠ 0 ∨
        (r2.outputWritten = false ∧ fsHas fs (inPath ++ ".tidy") = false) →
      (runPerltidyModel fs inPath code r2).1 = none ∧
      fsHas (runPerltidyModel fs inPath code r2).2 inPath = true ∧
      (r2.raises = false → r2.outputWritten = true →
        fsHas (runPerltidyModel fs inPath code r2).2 (inPath ++ ".tidy") = true) := by
  have hne : inPath ++ ".tidy" ≠ inPath := tidyPath_ne inPath
  have hne2 : inPath ≠ inPath ++ ".tidy" := Ne.symm hne
  refine ⟨?_, ?_, ?_⟩
  · unfold runPerltidyModel
    rw [hr, hw]
    simp [he, fsHas, fsRemove, fsWrite, hne, hne2]
  · unfold runPerltidyModel
    rw [hr, hw]
    simp [he, fsHas, fsRemove, fsWrite, hne, hne2]
  · intro r2 h2
    by_cases hr2 : r2.raises = true
    · unfold runPerltidyModel
      refine ⟨by simp [hr2], by simp [hr2, fsHas, fsWrite], ?_⟩
      intro hcon
      rw [hr2] at hcon
      exact absurd hcon (by simp)
    · have hr2f : r2.raises = false := by simpa using hr2
      by_cases hx : r2.exitCode = 0
      · rcases h2 with h2 | h2 | h2
        · exact absurd h2 hr2
        · exact absurd hx h2
        · obtain ⟨hw2, hcl⟩ := h2
          unfold runPerltidyModel
          simp only [fsHas] at hcl
          refine ⟨?_, ?_, ?_⟩
          · simp [hr2f, hw2, hx, fsHas, fsWrite, hne, hcl]
          · simp [hr2f, hw2, hx, fsHas, fsWrite, hne, hne2, hcl]
          · intro _ hcon
            rw [hcon] at hw2
            exact absurd hw2 (by simp)
      · unfold runPerltidyModel
        by_cases hwr : r2.outputWritten = true
        · refine ⟨?_, ?_, ?_⟩
          · simp [hr2f, hwr, hx, fsHas, fsWrite]
          · simp [hr2f, hwr, hx, fsHas, fsWrite, hne, hne2]
          · intro _ _
            simp [hr2f, hwr, hx, fsHas, fsWrite]
        · have hwr2 : r2.outputWritten = false := by simpa using hwr
          refine ⟨?_, ?_, ?_⟩
          · simp [hr2f, hwr2, hx, fsHas, fsWrite]
          · simp [hr2f, hwr2, hx, fsHas, fsWrite]
          · intro _ hcon
            rw [hcon] at hwr2
            exact absurd hwr2 (by simp)

/-- C7 witness: a concrete successful run removes both temporaries; a concrete
run whose tool exits zero but writes no output returns `None` and leaves the
input file behind; a concrete non-zero-exit run that did write output leaves
the output file behind. -/
theorem c7_witness :
    fsHas (runPerltidyModel fsEmpty "/tmp/i" (str "a;\nb;")
      { raises := false, exitCode := 0, outputWritten := true,
        outputContent := str "ok" }).2 "/tmp/i" = false ∧
    fsHas (runPerltidyModel fsEmpty "/tmp/i" (str "a;\nb;")
      { raises := false, exitCode := 0, outputWritten := true,
        outputContent := str "ok" }).2 ("/tmp/i" ++ ".tidy") = false ∧
    ((runPerltidyModel fsEmpty "/tmp/i" (str "a;\nb;")
        { raises := false, exitCode := 0, outputWritten := false,
          outputContent := [] }).1 = none ∧
      fsHas (runPerltidyModel fsEmpty "/tmp/i" (str "a;\nb;")
        { raises := false, exitCode := 0, outputWritten := false,
          outputContent := [] }).2 "/tmp/i" = true) ∧
    fsHas (runPerltidyModel fsEmpty "/tmp/i" (str "a;\nb;")
      { raises := false, exitCode := 1, outputWritten := true,
        outputContent := str "ok" }).2 ("/tmp/i" ++ ".tidy") = true := by
  have h := c7_cleanup_success_only fsEmpty "/tmp/i" (str "a;\nb;")
    ⟨false, 0, true, str "ok"⟩ rfl rfl rfl
  have hm := h.2.2 ⟨false, 0, false, []⟩ (Or.inr (Or.inr ⟨rfl, rfl⟩))
  have hn := h.2.2 ⟨false, 1, true, str "ok"⟩ (Or.inr (Or.inl (by decide)))
  exact ⟨h.1, h.2.1, ⟨hm.1, hm.2.1⟩, hn.2.2 rfl rfl⟩

/-- C8 amended: no timeout is passed to the child-process call (the wait is
unbounded); any exception the invocation raises is caught and treated as a
normal per-block failure (`_run_perltidy` returns `None`), upon which the
embedded-block normaliser uses the fallback heuristic instead of aborting. -/
theorem c8_no_timeout_and_fallback :
    (∀ (sz : Nat) (inPath outPath : String),
        (perltidyInvocation sz inPath outPath).timeout = none) ∧
    (∀ (fs : TidyFS) (inPath : String) (code : Str) (r : TidyRun),
        r.raises = true → (runPerltidyModel fs inPath code r).1 = none) ∧
    (∀ (sz : Nat) (g : Str), g ≠ [] → ¬(splitLines g).length ≤ 1 →
        replRegion tidyNone sz g =
          str "<%\n" ++ fallbackPerlFormat sz (splitLines g) ++ str "\n%>") := by
  refine ⟨fun _ _ _ => rfl, ?_, ?_⟩
  · intro fs inPath code r hr
    unfold runPerltidyModel
    rw [hr]
    simp
  · intro sz g hg hlines
    unfold replRegion
    rw [if_neg hg, if_neg hlines]
    rfl

/-- C8 witness: the concrete invocation record carries no timeout; a concrete
raising run returns `None`; a concrete two-line fragment is rendered with the
fallback heuristic. -/
theorem c8_witness :
    (perltidyInvocation 4 "/tmp/i" "/tmp/i.tidy").timeout = none ∧
    (runPerltidyModel fsEmpty "/tmp/i" (str "a;\nb;")
      { raises := true, exitCode := 0, outputWritten := false,
        outputContent := [] }).1 = none ∧
    replRegion tidyNone 4 (str "a;\nb;") =
      str "<%\n" ++ fallbackPerlFormat 4 (splitLines (str "a;\nb;")) ++ str "\n%>" := by
  exact ⟨c8_no_timeout_and_fallback.1 4 "/tmp/i" "/tmp/i.tidy",
    c8_no_timeout_and_fallback.2.1 fsEmpty "/tmp/i" (str "a;\nb;") _ rfl,
    c8_no_timeout_and_fallback.2.2 4 (str "a;\nb;") (by decide) (by decide)⟩

theorem renderAdjGo_succ (sz base : Nat) (ps : List Str) :
    ∀ j, renderAdjGo sz base (j + 1) ps =
      ps.map fun p =>
        spaces (if startsW (str "</") (pyStrip p) then max 0 (base - sz) else base) ++
          pyStrip p := by
  induction ps with
  | nil => intro j; rfl
  | cons p rest ih =>
      intro j
      simp only [renderAdjGo, List.map_cons, ih (j + 1)]
      simp

theorem adjSplitLoop_of_found (line : Str) (q : Nat) (h : findAdjSearch line = some q) :
    adjSplitLoop line = line.take q :: adjSplitLoopF line.length (line.drop q) := by
  unfold adjSplitLoop
  simp [adjSplitLoopF, h]

theorem postprocessGo_flatMap (sz : Nat) :
    ∀ lines : List Str, (∀ l ∈ lines, pyStrip l ≠ str "<%") →
      postprocessGo sz false lines = lines.flatMap (processLinePost sz) := by
  intro lines
  induction lines with
  | nil => intro _; rfl
  | cons line rest ih =>
      intro h
      have h1 : pyStrip line ≠ str "<%" := h line (List.mem_cons_self line rest)
      have h2 : ∀ l ∈ rest, pyStrip l ≠ str "<%" :=
        fun l hl => h l (List.mem_cons_of_mem line hl)
      by_cases hpg : pyStrip line = str "%>"
      · simp only [postprocessGo, if_neg h1, if_pos hpg, List.flatMap_cons, ih h2,
          processLinePost]
        simp [hpg, h1]
      · by_cases hfa : (findAdjSearch line).isSome
        · simp only [postprocessGo, if_neg h1, if_neg hpg, List.flatMap_cons, ih h2,
            processLinePost, hfa]
          simp [hpg, h1, hfa]
        · simp only [postprocessGo, if_neg h1, if_neg hpg, List.flatMap_cons, ih h2,
            processLinePost]
          simp [hpg, h1, hfa]

/-- C5: a line holding two adjacent closing tags (outside embedded-Perl
regions) is split at the second tag; the first fragment keeps the line's
original indent, and every later fragment whose stripped text starts with a
closing tag is indented at the base indent minus one step, floored at zero.
The post-pass applies this per-line transform to every line when no embedded
region is present, and splits `</div></div>` at base indent 8 (step 4) into
`</div>` at indent 8 and `</div>` at indent 4. -/
theorem c5_closing_tag_split :
    (∀ (sz : Nat) (line : Str) (q : Nat),
        findAdjSearch line = some q →
        pyStrip line ≠ str "<%" → pyStrip line ≠ str "%>" →
        ∃ ps, adjSplitLoop line = line.take q :: ps ∧
          processLinePost sz line =
            (spaces (countLeadingWs line) ++ pyStrip (line.take q)) ::
              ps.map (fun p =>
                spaces (if startsW (str "</") (pyStrip p) then
                          max 0 (countLeadingWs line - sz)
                        else countLeadingWs line) ++ pyStrip p)) ∧
    (∀ (sz : Nat) (lines : List Str), (∀ l ∈ lines, pyStrip l ≠ str "<%") →
        postprocessClosingTags sz lines = lines.flatMap (processLinePost sz)) ∧
    postprocessClosingTags 4 [spaces 8 ++ str "</div></div>"] =
      [spaces 8 ++ str "</div>", spaces 4 ++ str "</div>"] := by
  refine ⟨?_, ?_, by decide⟩
  · intro sz line q hq h1 h2
    refine ⟨adjSplitLoopF line.length (line.drop q), adjSplitLoop_of_found line q hq, ?_⟩
    have hfa : (findAdjSearch line).isSome := by rw [hq]; rfl
    simp only [processLinePost]
    rw [if_neg (by simp [h1, h2]), if_pos hfa, adjSplitLoop_of_found line q hq]
    simp only [renderAdjGo, renderAdjGo_succ]
    simp
  · intro sz lines h
    exact postprocessGo_flatMap sz lines h

/-- C5 witness: the per-line transform applied to `</div></div>` at base
indent 8 with step 4. -/
theorem c5_witness :
    processLinePost 4 (spaces 8 ++ str "</div></div>") =
      [spaces 8 ++ str "</div>", spaces 4 ++ str "</div>"] := by
  obtain ⟨ps, h1, h2⟩ :=
    c5_closing_tag_split.1 4 (spaces 8 ++ str "</div></div>") 14 (by decide)
      (by decide) (by decide)
  rw [h2]
  have h3 : adjSplitLoop (spaces 8 ++ str "</div></div>") =
      [spaces 8 ++ str "</div>", str "</div>"] := by decide
  rw [h3] at h1
  have hps : ps = [str "</div>"] := by
    simp only [List.cons.injEq] at h1
    exact h1.2.symm
  rw [hps]
  decide

theorem popLast_append (l : List Nat) (n : Nat) : popLast (l ++ [n]) = some (n, l) := by
  unfold popLast
  rw [List.reverse_append]
  simp

/-- C1: a control-block opener line emitted at indent N pushes N on the
directive stack; a closing line (`% }`, or `% end` resolved against a
non-empty directive stack) processed when the entry N is still on top of the
stack — however the indent moved in between — is emitted at exactly indent N
and restores the indent to N; and a `% }` line with an empty directive stack
is emitted at the current indent, which is left unchanged. -/
theorem c1_brace_mirrors_opener (sz : Nat) :
    (∀ (s : FmtState) (line : Str),
        searchContentBlockStart (mojoNormalize (pyLstrip line)) = false →
        searchFormBlockStart (mojoNormalize (pyLstrip line)) = false →
        searchPerlBlockStart (mojoNormalize (pyLstrip line)) = true →
        processMojoCommandLine sz s line =
          { s with
              outputLines := s.outputLines ++
                [spaces s.currentIndent ++ mojoNormalize (pyLstrip line)],
              perlBlockStack := s.perlBlockStack ++ [s.currentIndent],
              currentIndent := s.currentIndent + sz }) ∧
    (∀ (s : FmtState) (line : Str) (l : List Nat) (n : Nat),
        searchContentBlockStart (mojoNormalize (pyLstrip line)) = false →
        searchFormBlockStart (mojoNormalize (pyLstrip line)) = false →
        searchPerlBlockStart (mojoNormalize (pyLstrip line)) = false →
        searchPerlBlockEnd (mojoNormalize (pyLstrip line)) = true →
        s.perlBlockStack = l ++ [n] →
        processMojoCommandLine sz s line =
          { s with
              outputLines := s.outputLines ++ [spaces n ++ mojoNormalize (pyLstrip line)],
              perlBlockStack := l,
              currentIndent := n }) ∧
    (∀ (s : FmtState) (line : Str) (l : List Nat) (n : Nat),
        searchContentBlockStart (mojoNormalize (pyLstrip line)) = false →
        searchFormBlockStart (mojoNormalize (pyLstrip line)) = false →
        searchPerlBlockStart (mojoNormalize (pyLstrip line)) = false →
        searchPerlBlockEnd (mojoNormalize (pyLstrip line)) = false →
        searchPerlEnd (mojoNormalize (pyLstrip line)) = true →
        s.perlBlockStack = l ++ [n] →
        processMojoCommandLine sz s line =
          { s with
              outputLines := s.outputLines ++ [spaces n ++ mojoNormalize (pyLstrip line)],
              perlBlockStack := l,
              currentIndent := n }) ∧
    (∀ (s : FmtState) (line : Str),
        searchContentBlockStart (mojoNormalize (pyLstrip line)) = false →
        searchFormBlockStart (mojoNormalize (pyLstrip line)) = false →
        searchPerlBlockStart (mojoNormalize (pyLstrip line)) = false →
        searchPerlBlockEnd (mojoNormalize (pyLstrip line)) = true →
        s.perlBlockStack = [] →
        processMojoCommandLine sz s line =
          { s with
              outputLines := s.outputLines ++
                [spaces s.currentIndent ++ mojoNormalize (pyLstrip line)] }) := by
  refine ⟨?_, ?_, ?_, ?_⟩
  · intro s line hc hf hs
    unfold processMojoCommandLine processMojoStripped mojoStep
    simp [hc, hf, hs]
  · intro s line l n hc hf hs he hstack
    unfold processMojoCommandLine processMojoStripped mojoStep
    rw [hstack]
    simp [hc, hf, hs, he, popLast_append]
  · intro s line l n hc hf hs he hend hstack
    unfold processMojoCommandLine processMojoStripped mojoStep
    rw [hstack]
    simp [hc, hf, hs, he, hend, popLast_append]
  · intro s line hc hf hs he hstack
    unfold processMojoCommandLine processMojoStripped mojoStep
    rw [hstack]
    simp [hc, hf, hs, he, popLast]

/-- C1 witness: the opener `% if (1) {` pushes indent 0; the closer `% }`
processed at indent 8 with stack `[0, 4]` is emitted at indent 4 and restores
it; `% end` pops likewise; `% }` on an empty stack keeps the indent. -/
theorem c1_witness :
    processMojoCommandLine 4 initState (str "% if (1) \x7b") =
      { initState with outputLines := [str "% if (1) \x7b"],
                       perlBlockStack := [0], currentIndent := 4 } ∧
    processMojoCommandLine 4
        { initState with currentIndent := 8, perlBlockStack := [0, 4] } (str "% \x7d") =
      { initState with outputLines := [spaces 4 ++ str "% \x7d"],
                       perlBlockStack := [0], currentIndent := 4 } ∧
    processMojoCommandLine 4
        { initState with currentIndent := 12, perlBlockStack := [0] } (str "% end") =
      { initState with outputLines := [str "% end"],
                       perlBlockStack := [], currentIndent := 0 } ∧
    processMojoCommandLine 4
        { initState with currentIndent := 8 } (str "% \x7d") =
      { initState with outputLines := [spaces 8 ++ str "% \x7d"], currentIndent := 8 } := by
  refine ⟨?_, ?_, ?_, ?_⟩
  · exact (c1_brace_mirrors_opener 4).1 initState (str "% if (1) \x7b") rfl rfl rfl
  · exact (c1_brace_mirrors_opener 4).2.1
      { initState with currentIndent := 8, perlBlockStack := [0, 4] } (str "% \x7d")
      [0] 4 rfl rfl rfl rfl rfl
  · exact (c1_brace_mirrors_opener 4).2.2.1
      { initState with currentIndent := 12, perlBlockStack := [0] } (str "% end")
      [] 0 rfl rfl rfl rfl rfl rfl
  · exact (c1_brace_mirrors_opener 4).2.2.2
      { initState with currentIndent := 8 } (str "% \x7d") rfl rfl rfl rfl rfl

/-- C10 counterexample: the line `<% x %><br></span> </p>more` is a markup line
(it does not start with the directive sigil) and matches the
line-break/`</span>`/whitespace/`</p>` pattern, yet `_process_html_line` emits
it verbatim — including the characters after `</p>` — because lines whose
stripped form starts with `<%` are passed through before the pattern branch is
reached. -/
theorem c10_counterexample :
    isMojoCommandLine (str "<% x %><br></span> </p>more") = false ∧
      searchBrSpanSpaceP (pyLstrip (str "<% x %><br></span> </p>more")) = true ∧
      processHtmlLine 4 initState (str "<% x %><br></span> </p>more") =
        some { initState with outputLines := [str "<% x %><br></span> </p>more"] } := by
  exact ⟨rfl, rfl, rfl⟩

theorem pyRstrip_decomp (m : Str) :
    m = pyRstrip m ++ (m.reverse.takeWhile pyIsSpace).reverse := by
  conv_lhs => rw [← m.reverse_reverse,
    ← List.takeWhile_append_dropWhile (p := pyIsSpace) (l := m.reverse)]
  rw [List.reverse_append]
  rfl

theorem mojo_of_strip_sigil (line : Str) {xs : Str} (h : pyStrip line = '%' :: xs) :
    isMojoCommandLine line = true := by
  unfold isMojoCommandLine
  have hd := pyRstrip_decomp (pyLstrip line)
  rw [show pyRstrip (pyLstrip line) = pyStrip line from rfl, h] at hd
  rw [hd]
  simp

/-- C10 amended: for every markup line matching the line-break/`</span>`/
whitespace/`</p>` pattern whose stripped form does not start with the
embedded-code delimiter `<%`, the emitted output line ends at the closing `p`
tag: it is the computed base indent, the content up to and including
`</span>`, the original whitespace, and `</p>`; everything after the `</p>` of
the match is absent from the output. -/
theorem c10_brspanp_truncates (sz : Nat) (st : FmtState) (line A W B : Str)
    (hm : isMojoCommandLine line = false)
    (hpre : startsW (str "<%") (pyStrip line) = false)
    (hsearch : searchBrSpanSpaceP (pyLstrip line) = true)
    (hsplit : splitSpanSpaceP (pyLstrip line) = some (A, W, B)) :
    ∃ (k : Nat) (s2 : FmtState),
      processHtmlLine sz st line = some s2 ∧
      s2.outputLines =
        st.outputLines ++ [spaces k ++ A ++ str "</span>" ++ W ++ str "</p>"] := by
  have hp2 : pyStrip line ≠ str "%>" := by
    intro hcontra
    have hx : pyStrip line = '%' :: ['>'] := hcontra
    have hmo := mojo_of_strip_sigil line hx
    rw [hmo] at hm
    exact absurd hm (by simp)
  refine ⟨brBaseIndent sz st, brSpanPBranch sz st (pyLstrip line), ?_, ?_⟩
  · unfold processHtmlLine
    rw [if_neg (by simp [hpre]), if_neg hp2]
    simp [hsearch]
  · unfold brSpanPBranch
    rw [hsearch, hsplit]
    simp [apply_ite FmtState.outputLines]

/-- C10 witness: the example line `<br></span>   </p>more text` processed from
the initial state; the emitted line stops at `</p>` and drops `more text`. -/
theorem c10_witness :
    ∃ (k : Nat) (s2 : FmtState),
      processHtmlLine 4 initState (str "<br></span>   </p>more text") = some s2 ∧
      s2.outputLines =
        initState.outputLines ++
          [spaces k ++ str "<br>" ++ str "</span>" ++ str "   " ++ str "</p>"] := by
  exact c10_brspanp_truncates 4 initState (str "<br></span>   </p>more text")
    (str "<br>") (str "   ") (str "more text") (by decide) (by decide) (by decide)
    (by decide)

theorem removeFirst_perm (a : Str) {l1 l2 : List Str} (h : l1.Perm l2) :
    (removeFirst a l1).Perm (removeFirst a l2) := by
  induction h with
  | nil => exact List.Perm.refl _
  | cons x hsub ih =>
      simp only [removeFirst]
      by_cases hx : x = a
      · rw [if_pos hx, if_pos hx]
        exact hsub
      · rw [if_neg hx, if_neg hx]
        exact ih.cons x
  | swap x y l =>
      simp only [removeFirst]
      by_cases hy : y = a <;> by_cases hx : x = a
      · subst hy; subst hx
        simp
      · subst hy
        simp [hx]
      · subst hx
        simp [hy]
      · simp only [if_neg hy, if_neg hx]
        exact List.Perm.swap x y _
  | trans h1 h2 ih1 ih2 => exact ih1.trans ih2

theorem removeFirst_append_singleton (a : Str) (l : List Str) :
    (removeFirst a (l ++ [a])).Perm l := by
  induction l with
  | nil => simp [removeFirst]
  | cons x xs ih =>
      simp only [List.cons_append, removeFirst]
      by_cases hx : x = a
      · rw [if_pos hx]
        subst hx
        exact List.perm_append_singleton x xs
      · rw [if_neg hx]
        exact ih.cons x

theorem mem_of_mem_removeFirst {e a : Str} :
    ∀ {l : List Str}, e ∈ removeFirst a l → e ∈ l := by
  intro l
  induction l with
  | nil => intro h; exact absurd h (by simp [removeFirst])
  | cons x xs ih =>
      intro h
      simp only [removeFirst] at h
      by_cases hx : x = a
      · rw [if_pos hx] at h
        exact List.mem_cons_of_mem x h
      · rw [if_neg hx] at h
        rcases List.mem_cons.mp h with hh | hh
        · exact hh ▸ List.mem_cons_self x xs
        · exact List.mem_cons_of_mem x (ih hh)

theorem map_pyLower_id : ∀ l : List Str,
    (∀ e ∈ l, e = str "div" ∨ e = str "span") → l.map pyLower = l := by
  intro l
  induction l with
  | nil => intro _; rfl
  | cons x xs ih =>
      intro h
      have hx : pyLower x = x := by
        rcases h x (List.mem_cons_self x xs) with hh | hh <;> subst hh <;> rfl
      rw [List.map_cons, hx, ih fun e he => h e (List.mem_cons_of_mem x he)]

theorem procDOpen (s : FmtState) :
    processMojoCommandLine 4 s (str "% if (1) \x7b") =
      { s with outputLines := s.outputLines ++ [spaces s.currentIndent ++ str "% if (1) \x7b"],
               perlBlockStack := s.perlBlockStack ++ [s.currentIndent],
               currentIndent := s.currentIndent + 4 } := rfl

theorem procDClose (s : FmtState) (l : List Nat) (n : Nat)
    (hstack : s.perlBlockStack = l ++ [n]) :
    processMojoCommandLine 4 s (str "% \x7d") =
      { s with outputLines := s.outputLines ++ [spaces n ++ str "% \x7d"],
               perlBlockStack := l, currentIndent := n } := by
  have hm : mojoStep 4 (str "% \x7d") s.currentIndent s.perlBlockStack s.inFormBlock
        s.inContentBlock =
      (match popLast s.perlBlockStack with
       | some (m, rest) => (m, m, rest, s.inFormBlock, s.inContentBlock)
       | none => (s.currentIndent, s.currentIndent, s.perlBlockStack, s.inFormBlock,
           s.inContentBlock)) := rfl
  have hred : processMojoCommandLine 4 s (str "% \x7d") =
      (match mojoStep 4 (str "% \x7d") s.currentIndent s.perlBlockStack s.inFormBlock
          s.inContentBlock with
       | (k, cur, perl, fb, cb) =>
           { currentIndent := cur,
             outputLines := s.outputLines ++ [spaces k ++ str "% \x7d"],
             perlBlockStack := perl, htmlTagStack := s.htmlTagStack,
             inFormBlock := fb, inContentBlock := cb }) := rfl
  rw [hred, hm, hstack, popLast_append]

theorem procMOpenDiv (s : FmtState) :
    processHtmlLine 4 s (str "<div>") =
      some { s with outputLines := s.outputLines ++ [spaces s.currentIndent ++ str "<div>"],
                    htmlTagStack := s.htmlTagStack ++ [str "div"],
                    currentIndent := s.currentIndent + 4 } := rfl

theorem procMOpenSpan (s : FmtState) :
    processHtmlLine 4 s (str "<span>") =
      some { s with outputLines := s.outputLines ++ [spaces s.currentIndent ++ str "<span>"],
                    htmlTagStack := s.htmlTagStack ++ [str "span"],
                    currentIndent := s.currentIndent + 2 } := rfl

theorem procMCloseDiv (s : FmtState) (hmem : str "div" ∈ s.htmlTagStack)
    (hlow : s.htmlTagStack.map pyLower = s.htmlTagStack) :
    processHtmlLine 4 s (str "</div>") =
      some { s with htmlTagStack := removeFirst (str "div") s.htmlTagStack,
                    currentIndent := max 0 (s.currentIndent - 4),
                    outputLines := s.outputLines ++
                      [spaces (max 0 (s.currentIndent - 4)) ++ str "</div>"] } := by
  have hred : processHtmlLine 4 s (str "</div>") = genericBranch 4 s (str "</div>") := rfl
  rw [hred]
  unfold genericBranch
  have hclose : closeTagFindAll (str "</div>") = [str "div"] := rfl
  have hopen : openTagFindAll (str "</div>") = [] := rfl
  have hself : selfCloseFindAll (str "</div>") = [] := rfl
  rw [hclose, hopen, hself]
  have hlowmem : pyLower (str "div") ∈ s.htmlTagStack.map pyLower := by
    rw [show pyLower (str "div") = str "div" from rfl, hlow]
    exact hmem
  simp only [closersLoop]
  rw [if_neg (by decide), if_pos hlowmem, if_pos hmem]
  simp only [closersLoop, openersLoop]
  rw [if_neg (by decide)]

theorem procMCloseSpan (s : FmtState) (hmem : str "span" ∈ s.htmlTagStack)
    (hlow : s.htmlTagStack.map pyLower = s.htmlTagStack) :
    processHtmlLine 4 s (str "</span>") =
      some { s with htmlTagStack := removeFirst (str "span") s.htmlTagStack,
                    currentIndent := max 0 (s.currentIndent - 2),
                    outputLines := s.outputLines ++
                      [spaces (max 0 (s.currentIndent - 2)) ++ str "</span>"] } := by
  have hred : processHtmlLine 4 s (str "</span>") = genericBranch 4 s (str "</span>") := rfl
  rw [hred]
  unfold genericBranch
  have hclose : closeTagFindAll (str "</span>") = [str "span"] := rfl
  have hopen : openTagFindAll (str "</span>") = [] := rfl
  have hself : selfCloseFindAll (str "</span>") = [] := rfl
  rw [hclose, hopen, hself]
  have hlowmem : pyLower (str "span") ∈ s.htmlTagStack.map pyLower := by
    rw [show pyLower (str "span") = str "span" from rfl, hlow]
    exact hmem
  simp only [closersLoop]
  rw [if_neg (by decide), if_pos hlowmem, if_pos hmem]
  simp only [closersLoop, openersLoop]
  rw [if_pos (by decide)]

theorem runLines_cons (sz : Nat) (rb : Bool) (s : FmtState) (line : Str)
    (rest : List Str) :
    runLines sz rb s (line :: rest) =
      (if pyStrip line = [] then
        (if rb then runLines sz rb s rest
         else runLines sz rb { s with outputLines := s.outputLines ++ [[]] } rest)
      else if isMojoCommandLine line then
        runLines sz rb (processMojoCommandLine sz s line) rest
      else
        match processHtmlLine sz s line with
        | some s1 => runLines sz rb s1 rest
        | none => none) := rfl

theorem runLines_cons_mojo (sz : Nat) (s : FmtState) (line : Str) (rest : List Str)
    (hblank : pyStrip line ≠ []) (hm : isMojoCommandLine line = true) :
    runLines sz true s (line :: rest) =
      runLines sz true (processMojoCommandLine sz s line) rest := by
  rw [runLines_cons, if_neg hblank, if_pos hm]

theorem runLines_cons_html (sz : Nat) (s s1 : FmtState) (line : Str) (rest : List Str)
    (hblank : pyStrip line ≠ []) (hm : isMojoCommandLine line = false)
    (hp : processHtmlLine sz s line = some s1) :
    runLines sz true s (line :: rest) = runLines sz true s1 rest := by
  rw [runLines_cons, if_neg hblank, if_neg (by simp [hm]), hp]

theorem runLines_append (sz : Nat) (rb : Bool) :
    ∀ (a b : List Str) (s : FmtState),
      runLines sz rb s (a ++ b) =
        (runLines sz rb s a).bind fun t => runLines sz rb t b := by
  intro a
  induction a with
  | nil => intro b s; rfl
  | cons line rest ih =>
      intro b s
      rw [List.cons_append, runLines_cons, runLines_cons]
      by_cases hb : pyStrip line = []
      · rw [if_pos hb, if_pos hb]
        cases rb
        · simp only [Bool.false_eq_true, if_false]
          rw [ih b _]
        · simp only [if_true]
          rw [ih b s]
      · rw [if_neg hb, if_neg hb]
        by_cases hm : isMojoCommandLine line = true
        · rw [if_pos hm, if_pos hm]
          rw [ih b _]
        · rw [if_neg hm, if_neg hm]
          cases hph : processHtmlLine sz s line with
          | some s1 =>
              simp only [hph]
              rw [ih b s1]
          | none => simp [hph]

theorem balToks_tokOK {ts : List Tok} (h : BalToks ts) : ∀ tok ∈ ts, tokOK tok := by
  induction h with
  | nil => intro tok htok; simp at htok
  | app _ _ iha ihb =>
      intro tok htok
      rcases List.mem_append.mp htok with hh | hh
      · exact iha tok hh
      · exact ihb tok hh
  | mwrap n hn _ ihw =>
      intro tok htok
      rcases List.mem_cons.mp htok with hh | hh
      · subst hh; exact hn
      · rcases List.mem_append.mp hh with hh2 | hh2
        · exact ihw tok hh2
        · rw [List.mem_singleton.mp hh2]; exact hn
  | dwrap _ ihw =>
      intro tok htok
      rcases List.mem_cons.mp htok with hh | hh
      · subst hh; trivial
      · rcases List.mem_append.mp hh with hh2 | hh2
        · exact ihw tok hh2
        · rw [List.mem_singleton.mp hh2]; trivial

theorem balToks_run {ts : List Tok} (h : BalToks ts) :
    ∀ s : FmtState, goodStack s →
      ∃ t : FmtState,
        runLines 4 true s (ts.map renderTok) = some t ∧
        t.currentIndent = s.currentIndent ∧
        t.perlBlockStack = s.perlBlockStack ∧
        t.htmlTagStack.Perm s.htmlTagStack ∧
        t.inFormBlock = s.inFormBlock ∧
        t.inContentBlock = s.inContentBlock ∧
        goodStack t := by
  induction h with
  | nil =>
      intro s hs
      exact ⟨s, rfl, rfl, rfl, List.Perm.refl _, rfl, rfl, hs⟩
  | app ha hb iha ihb =>
      intro s hs
      obtain ⟨t1, h1, hc1, hp1, hm1, hf1, hk1, hg1⟩ := iha s hs
      obtain ⟨t2, h2, hc2, hp2, hm2, hf2, hk2, hg2⟩ := ihb t1 hg1
      refine ⟨t2, ?_, ?_, ?_, ?_, ?_, ?_, hg2⟩
      · rw [List.map_append, runLines_append, h1, Option.some_bind]
        exact h2
      · rw [hc2, hc1]
      · rw [hp2, hp1]
      · exact hm2.trans hm1
      · rw [hf2, hf1]
      · rw [hk2, hk1]
  | mwrap n hn hw ihw =>
      intro s hs
      rcases hn with hn | hn <;> subst hn
      · -- n = "div"
        have hgood1 : goodStack { s with
            outputLines := s.outputLines ++ [spaces s.currentIndent ++ str "<div>"],
            htmlTagStack := s.htmlTagStack ++ [str "div"],
            currentIndent := s.currentIndent + 4 } := by
          intro e he
          rcases List.mem_append.mp he with he | he
          · exact hs e he
          · exact Or.inl (List.mem_singleton.mp he)
        obtain ⟨t1, h1, hc1, hp1, hm1, hf1, hk1, hg1⟩ := ihw _ hgood1
        have hc1' : t1.currentIndent = s.currentIndent + 4 := hc1
        have hp1' : t1.perlBlockStack = s.perlBlockStack := hp1
        have hm1' : t1.htmlTagStack.Perm (s.htmlTagStack ++ [str "div"]) := hm1
        have hf1' : t1.inFormBlock = s.inFormBlock := hf1
        have hk1' : t1.inContentBlock = s.inContentBlock := hk1
        have hmem : str "div" ∈ t1.htmlTagStack := by
          apply hm1'.mem_iff.mpr
          exact List.mem_append_right _ (List.mem_singleton_self _)
        have hlow : t1.htmlTagStack.map pyLower = t1.htmlTagStack := map_pyLower_id _ hg1
        refine ⟨{ t1 with
            htmlTagStack := removeFirst (str "div") t1.htmlTagStack,
            currentIndent := max 0 (t1.currentIndent - 4),
            outputLines := t1.outputLines ++
              [spaces (max 0 (t1.currentIndent - 4)) ++ str "</div>"] },
          ?_, ?_, ?_, ?_, ?_, ?_, ?_⟩
        · rw [List.cons_append, List.map_cons, show renderTok (Tok.mOpen (str "div")) = str "<div>" from rfl]
          rw [runLines_cons_html 4 s _ (str "<div>") _ (by decide) (by decide) (procMOpenDiv s)]
          rw [List.map_append, runLines_append, h1, Option.some_bind]
          rw [show [Tok.mClose (str "div")].map renderTok = [str "</div>"] from rfl]
          rw [runLines_cons_html 4 t1 _ (str "</div>") [] (by decide) (by decide)
            (procMCloseDiv t1 hmem hlow)]
          rfl
        · show max 0 (t1.currentIndent - 4) = s.currentIndent
          rw [hc1']
          omega
        · exact hp1'
        · exact (removeFirst_perm _ hm1').trans (removeFirst_append_singleton _ _)
        · exact hf1'
        · exact hk1'
        · intro e he
          exact hg1 e (mem_of_mem_removeFirst he)
      · -- n = "span"
        have hgood1 : goodStack { s with
            outputLines := s.outputLines ++ [spaces s.currentIndent ++ str "<span>"],
            htmlTagStack := s.htmlTagStack ++ [str "span"],
            currentIndent := s.currentIndent + 2 } := by
          intro e he
          rcases List.mem_append.mp he with he | he
          · exact hs e he
          · exact Or.inr (List.mem_singleton.mp he)
        obtain ⟨t1, h1, hc1, hp1, hm1, hf1, hk1, hg1⟩ := ihw _ hgood1
        have hc1' : t1.currentIndent = s.currentIndent + 2 := hc1
        have hp1' : t1.perlBlockStack = s.perlBlockStack := hp1
        have hm1' : t1.htmlTagStack.Perm (s.htmlTagStack ++ [str "span"]) := hm1
        have hf1' : t1.inFormBlock = s.inFormBlock := hf1
        have hk1' : t1.inContentBlock = s.inContentBlock := hk1
        have hmem : str "span" ∈ t1.htmlTagStack := by
          apply hm1'.mem_iff.mpr
          exact List.mem_append_right _ (List.mem_singleton_self _)
        have hlow : t1.htmlTagStack.map pyLower = t1.htmlTagStack := map_pyLower_id _ hg1
        refine ⟨{ t1 with
            htmlTagStack := removeFirst (str "span") t1.htmlTagStack,
            currentIndent := max 0 (t1.currentIndent - 2),
            outputLines := t1.outputLines ++
              [spaces (max 0 (t1.currentIndent - 2)) ++ str "</span>"] },
          ?_, ?_, ?_, ?_, ?_, ?_, ?_⟩
        · rw [List.cons_append, List.map_cons, show renderTok (Tok.mOpen (str "span")) = str "<span>" from rfl]
          rw [runLines_cons_html 4 s _ (str "<span>") _ (by decide) (by decide) (procMOpenSpan s)]
          rw [List.map_append, runLines_append, h1, Option.some_bind]
          rw [show [Tok.mClose (str "span")].map renderTok = [str "</span>"] from rfl]
          rw [runLines_cons_html 4 t1 _ (str "</span>") [] (by decide) (by decide)
            (procMCloseSpan t1 hmem hlow)]
          rfl
        · show max 0 (t1.currentIndent - 2) = s.currentIndent
          rw [hc1']
          omega
        · exact hp1'
        · exact (removeFirst_perm _ hm1').trans (removeFirst_append_singleton _ _)
        · exact hf1'
        · exact hk1'
        · intro e he
          exact hg1 e (mem_of_mem_removeFirst he)
  | dwrap hw ihw =>
      intro s hs
      obtain ⟨t1, h1, hc1, hp1, hm1, hf1, hk1, hg1⟩ := ihw { s with
          outputLines := s.outputLines ++ [spaces s.currentIndent ++ str "% if (1) \x7b"],
          perlBlockStack := s.perlBlockStack ++ [s.currentIndent],
          currentIndent := s.currentIndent + 4 } hs
      have hc1' : t1.currentIndent = s.currentIndent + 4 := hc1
      have hp1' : t1.perlBlockStack = s.perlBlockStack ++ [s.currentIndent] := hp1
      have hm1' : t1.htmlTagStack.Perm s.htmlTagStack := hm1
      have hf1' : t1.inFormBlock = s.inFormBlock := hf1
      have hk1' : t1.inContentBlock = s.inContentBlock := hk1
      refine ⟨{ t1 with
          outputLines := t1.outputLines ++ [spaces s.currentIndent ++ str "% \x7d"],
          perlBlockStack := s.perlBlockStack,
          currentIndent := s.currentIndent }, ?_, rfl, rfl, hm1', hf1', hk1', ?_⟩
      · rw [List.cons_append, List.map_cons, show renderTok Tok.dOpen = str "% if (1) \x7b" from rfl]
        rw [runLines_cons_mojo 4 s (str "% if (1) \x7b") _ (by decide) (by decide)]
        rw [procDOpen s]
        rw [List.map_append, runLines_append, h1, Option.some_bind]
        rw [show [Tok.dClose].map renderTok = [str "% \x7d"] from rfl]
        rw [runLines_cons_mojo 4 t1 (str "% \x7d") [] (by decide) (by decide)]
        rw [procDClose t1 s.perlBlockStack s.currentIndent hp1']
        rfl
      · intro e he
        exact hg1 e he

theorem splitFirstSubGo_none (pat : Str) :
    ∀ (l acc : Str), containsSub pat l = false → splitFirstSubGo pat acc l = none := by
  intro l
  induction l with
  | nil => intro acc _; rfl
  | cons c rest ih =>
      intro acc hc
      simp only [containsSub, Bool.or_eq_false_iff] at hc
      unfold splitFirstSubGo
      rw [if_neg (by simp [hc.1])]
      exact ih (c :: acc) hc.2

theorem preprocess_id (tidy : Str → Option Str) (sz : Nat) (content : Str)
    (h : containsSub (str "<%") content = false) :
    preprocessEmbedded tidy sz content = content := by
  have hreg : findEmbeddedRegion content = none := by
    unfold findEmbeddedRegion splitFirstSub
    rw [splitFirstSubGo_none (str "<%") content [] h]
  unfold preprocessEmbedded
  cases content with
  | nil => rfl
  | cons c rest =>
      unfold preprocessEmbeddedF
      rw [hreg]

theorem contains_lt_nl_cons (b : Str) :
    containsSub (str "<%") ('\n' :: b) = containsSub (str "<%") b := by
  simp [containsSub, startsW, str, List.isPrefixOf]

theorem contains_lt_append_nl (a b : Str)
    (ha : containsSub (str "<%") a = false) (hb : containsSub (str "<%") b = false) :
    containsSub (str "<%") (a ++ '\n' :: b) = false := by
  induction a with
  | nil =>
      rw [List.nil_append, contains_lt_nl_cons]
      exact hb
  | cons c a' ih =>
      simp only [containsSub, Bool.or_eq_false_iff] at ha
      obtain ⟨ha1, ha2⟩ := ha
      rw [List.cons_append]
      simp only [containsSub, Bool.or_eq_false_iff]
      refine ⟨?_, ih ha2⟩
      cases a' with
      | nil => simp [startsW, str, List.isPrefixOf]
      | cons d a'' =>
          simp only [startsW, str, List.isPrefixOf, List.cons_append] at ha1 ⊢
          simpa using ha1

theorem contains_lt_join : ∀ (rest : List Str) (l : Str),
    containsSub (str "<%") l = false →
    (∀ m ∈ rest, containsSub (str "<%") m = false) →
    containsSub (str "<%") (l ++ joinNLSep rest) = false := by
  intro rest
  induction rest with
  | nil =>
      intro l hl _
      rw [show joinNLSep [] = [] from rfl, List.append_nil]
      exact hl
  | cons m rest' ih =>
      intro l hl hrest
      rw [show joinNLSep (m :: rest') = '\n' :: (m ++ joinNLSep rest') from by
        simp [joinNLSep]]
      exact contains_lt_append_nl l _ hl
        (ih m (hrest m (List.mem_cons_self _ _))
          fun x hx => hrest x (List.mem_cons_of_mem _ hx))

theorem contains_lt_joinNL (ls : List Str)
    (h : ∀ m ∈ ls, containsSub (str "<%") m = false) :
    containsSub (str "<%") (joinNL ls) = false := by
  cases ls with
  | nil => rfl
  | cons l rest =>
      exact contains_lt_join rest l (h l (List.mem_cons_self _ _))
        fun m hm => h m (List.mem_cons_of_mem _ hm)

theorem splitLinesF_parts :
    ∀ (fuel : Nat) (l acc : Str) (rest : List Str),
      l.length + (joinNLSep rest).length < fuel →
      (∀ c ∈ l, isLineBreakChar c = false) →
      (∀ m ∈ rest, m ≠ [] ∧ ∀ c ∈ m, isLineBreakChar c = false) →
      splitLinesF fuel acc (l ++ joinNLSep rest) = (acc.reverse ++ l) :: rest := by
  intro fuel
  induction fuel with
  | zero =>
      intro l acc rest hlen
      exact absurd hlen (Nat.not_lt_zero _)
  | succ f ih =>
      intro l acc rest hlen hl hrest
      cases l with
      | cons c l' =>
          have hc : isLineBreakChar c = false := hl c (List.mem_cons_self _ _)
          rw [List.cons_append]
          unfold splitLinesF
          rw [if_neg (by simp [hc])]
          rw [ih l' (c :: acc) rest (by simp only [List.length_cons] at hlen; omega)
            (fun x hx => hl x (List.mem_cons_of_mem _ hx)) hrest]
          simp
      | nil =>
          rw [List.nil_append]
          cases rest with
          | nil =>
              rw [show joinNLSep [] = [] from rfl]
              simp [splitLinesF]
          | cons m rest' =>
              obtain ⟨hm, hmchars⟩ := hrest m (List.mem_cons_self _ _)
              have hjoin : joinNLSep (m :: rest') = '\n' :: (m ++ joinNLSep rest') := by
                simp [joinNLSep]
              rw [hjoin]
              cases m with
              | nil => exact absurd rfl hm
              | cons x m'' =>
                  have hstep :
                      splitLinesF (f + 1) acc ('\n' :: ((x :: m'') ++ joinNLSep rest')) =
                        List.reverse acc :: splitLinesF f [] ((x :: m'') ++ joinNLSep rest') :=
                    rfl
                  rw [hstep]
                  have hlen' : (x :: m'').length + (joinNLSep rest').length < f := by
                    rw [hjoin] at hlen
                    simp only [List.length_nil, List.length_cons, List.length_append] at hlen ⊢
                    omega
                  rw [ih (x :: m'') [] rest' hlen' hmchars
                    fun y hy => hrest y (List.mem_cons_of_mem _ hy)]
                  simp

theorem splitLines_joinNL (ls : List Str)
    (h : ∀ m ∈ ls, m ≠ [] ∧ ∀ c ∈ m, isLineBreakChar c = false) :
    splitLines (joinNL ls) = ls := by
  cases ls with
  | nil => rfl
  | cons l rest =>
      obtain ⟨hl, hlc⟩ := h l (List.mem_cons_self _ _)
      have hrest : ∀ m ∈ rest, m ≠ [] ∧ ∀ c ∈ m, isLineBreakChar c = false :=
        fun m hm => h m (List.mem_cons_of_mem _ hm)
      rw [show joinNL (l :: rest) = l ++ joinNLSep rest from rfl]
      unfold splitLines
      cases hc : l ++ joinNLSep rest with
      | nil =>
          exact absurd (List.append_eq_nil.mp hc).1 hl
      | cons c t =>
          rw [← hc]
          rw [splitLinesF_parts ((l ++ joinNLSep rest).length + 1) l [] rest
            (by rw [List.length_append]; omega) hlc hrest]
          simp
          rw [hc]

theorem renderTok_facts (tok : Tok) (h : tokOK tok) :
    renderTok tok ≠ [] ∧ (∀ c ∈ renderTok tok, isLineBreakChar c = false) ∧
      containsSub (str "<%") (renderTok tok) = false := by
  cases tok with
  | mOpen n => rcases h with h | h <;> subst h <;> exact ⟨by decide, by decide, by decide⟩
  | mClose n => rcases h with h | h <;> subst h <;> exact ⟨by decide, by decide, by decide⟩
  | dOpen => exact ⟨by decide, by decide, by decide⟩
  | dClose => exact ⟨by decide, by decide, by decide⟩

/-- C2 amended: for inputs that are a well-nested sequence of single-tag
markup lines (over the representative tag set {div, span}, one full-step and
one half-step tag) and control-directive opener/closer lines, the current
indent after the line-by-line pass is zero (and the pass succeeds). -/
theorem c2_balanced_restricted (ts : List Tok) (h : BalToks ts) :
    ∃ st : FmtState,
      formatLinePass tidyNone 4 true (joinNL (ts.map renderTok)) = some st ∧
      st.currentIndent = 0 := by
  have htok := balToks_tokOK h
  have hfacts : ∀ m ∈ ts.map renderTok,
      m ≠ [] ∧ (∀ c ∈ m, isLineBreakChar c = false) ∧
        containsSub (str "<%") m = false := by
    intro m hm
    obtain ⟨tok, htk, rfl⟩ := List.mem_map.mp hm
    exact renderTok_facts tok (htok tok htk)
  have hcont : containsSub (str "<%") (joinNL (ts.map renderTok)) = false :=
    contains_lt_joinNL _ fun m hm => (hfacts m hm).2.2
  have hpre : preprocessEmbedded tidyNone 4 (joinNL (ts.map renderTok)) =
      joinNL (ts.map renderTok) := preprocess_id _ _ _ hcont
  have hsplit : splitLines (joinNL (ts.map renderTok)) = ts.map renderTok :=
    splitLines_joinNL _ fun m hm => ⟨(hfacts m hm).1, (hfacts m hm).2.1⟩
  obtain ⟨t, hrun, hcur, -, -, -, -, -⟩ :=
    balToks_run h initState (fun e he => absurd he (List.not_mem_nil e))
  refine ⟨t, ?_, ?_⟩
  · unfold formatLinePass
    rw [hpre, hsplit]
    exact hrun
  · rw [hcur]
    rfl

/-- C2 witness: the concrete well-nested document
`<div>` / `% if (1) {` / `<span>` / `</span>` / `% }` / `</div>` ends the line
pass with indent zero. -/
theorem c2_witness :
    ∃ st : FmtState,
      formatLinePass tidyNone 4 true
        (joinNL ([Tok.mOpen (str "div"), Tok.dOpen, Tok.mOpen (str "span"),
          Tok.mClose (str "span"), Tok.dClose,
          Tok.mClose (str "div")].map renderTok)) = some st ∧
      st.currentIndent = 0 :=
  c2_balanced_restricted _
    (BalToks.mwrap (str "div") (Or.inl rfl)
      (BalToks.dwrap (BalToks.mwrap (str "span") (Or.inr rfl) BalToks.nil)))

theorem pyLstrip_cons_space {c : Char} (hc : pyIsSpace c = true) (t : Str) :
    pyLstrip (c :: t) = pyLstrip t := by
  simp [pyLstrip, List.dropWhile_cons, hc]

theorem pyLstrip_cons_nonspace {c : Char} (hc : pyIsSpace c = false) (t : Str) :
    pyLstrip (c :: t) = c :: t := by
  simp [pyLstrip, List.dropWhile_cons, hc]

theorem pyLstrip_spaces_append (k : Nat) (t : Str) :
    pyLstrip (spaces k ++ t) = pyLstrip t := by
  induction k with
  | zero => rfl
  | succ k ih =>
      rw [show spaces (k + 1) = ' ' :: spaces k from rfl, List.cons_append,
        pyLstrip_cons_space (by decide)]
      exact ih

theorem dropWhile_append_single (p : Char → Bool) (c : Char) (hc : p c = false) :
    ∀ a : Str, List.dropWhile p (a ++ [c]) = List.dropWhile p a ++ [c] ∨
      List.dropWhile p (a ++ [c]) = [c] := by
  intro a
  induction a with
  | nil => left; simp [List.dropWhile_cons, hc]
  | cons x a2 ih =>
      by_cases hx : p x = true
      · rw [List.cons_append, List.dropWhile_cons, if_pos hx, List.dropWhile_cons, if_pos hx]
        exact ih
      · left
        rw [List.cons_append, List.dropWhile_cons, List.dropWhile_cons]
        simp [hx]

theorem pyRstrip_cons_nonspace {c : Char} (hc : pyIsSpace c = false) (t : Str) :
    ∃ zs : Str, pyRstrip (c :: t) = c :: zs := by
  unfold pyRstrip
  rw [List.reverse_cons]
  rcases dropWhile_append_single pyIsSpace c hc t.reverse with h | h
  · exact ⟨(List.dropWhile pyIsSpace t.reverse).reverse, by rw [h]; simp⟩
  · exact ⟨[], by rw [h]; simp⟩

theorem lstrip_of_isMojo {l : Str} (h : isMojoCommandLine l = true) :
    ∃ xs : Str, pyLstrip l = '%' :: xs := by
  unfold isMojoCommandLine at h
  cases hl : pyLstrip l with
  | nil => rw [hl] at h; exact absurd h (by decide)
  | cons c xs =>
      rw [hl] at h
      have hc : c = '%' := by simpa using h
      exact ⟨xs, by rw [hc]⟩

theorem mojoNormalize_eq (c : Char) (rest : Str) :
    mojoNormalize ('%' :: c :: rest) = '%' :: ' ' :: c :: rest ∨
    mojoNormalize ('%' :: c :: rest) = '%' :: c :: rest := by
  have h : mojoNormalize ('%' :: c :: rest) =
      if c ≠ '=' && c ≠ '#' && c ≠ '%' && !pyIsSpace c then '%' :: ' ' :: c :: rest
      else '%' :: c :: rest := rfl
  rw [h]
  split
  · left; rfl
  · right; rfl

theorem mojoNormalize_head (xs : Str) :
    ∃ ys : Str, mojoNormalize ('%' :: xs) = '%' :: ys := by
  cases xs with
  | nil => exact ⟨[], rfl⟩
  | cons c rest =>
      rcases mojoNormalize_eq c rest with h | h
      · exact ⟨' ' :: c :: rest, h⟩
      · exact ⟨c :: rest, h⟩

theorem mojoNormalize_idem_pct (xs : Str) :
    mojoNormalize (mojoNormalize ('%' :: xs)) = mojoNormalize ('%' :: xs) := by
  cases xs with
  | nil => rfl
  | cons c rest =>
      rcases mojoNormalize_eq c rest with h | h <;> rw [h]
      · rfl
      · rw [h]

theorem pyStrip_spaces_pct (k : Nat) (ys : Str) :
    ∃ zs : Str, pyStrip (spaces k ++ '%' :: ys) = '%' :: zs := by
  unfold pyStrip
  rw [pyLstrip_spaces_append, pyLstrip_cons_nonspace (by decide)]
  exact pyRstrip_cons_nonspace (by decide) ys

theorem pyStrip_spaces_pct_ne (k : Nat) (ys : Str) :
    pyStrip (spaces k ++ '%' :: ys) ≠ [] := by
  obtain ⟨zs, hz⟩ := pyStrip_spaces_pct k ys
  rw [hz]
  exact List.cons_ne_nil _ _

theorem isMojo_spaces_pct (k : Nat) (ys : Str) :
    isMojoCommandLine (spaces k ++ '%' :: ys) = true := by
  unfold isMojoCommandLine
  rw [pyLstrip_spaces_append, pyLstrip_cons_nonspace (by decide)]
  rfl

theorem genParseCloseC_cons_ne {c : Char} (hc : c ≠ '<') (t : Str) :
    genParseCloseC (c :: t) = none := by
  unfold genParseCloseC
  split
  · next heq =>
      injection heq with h1 h2
      exact absurd h1 hc
  · rfl

theorem findAdjAt_cons_ne {c : Char} (hc : c ≠ '<') (t : Str) :
    findAdjAt (c :: t) = none := by
  unfold findAdjAt
  rw [genParseCloseC_cons_ne hc]

theorem findAdjGo_shift_none : ∀ (l : Str) (i j : Nat),
    findAdjGo i l = none → findAdjGo j l = none := by
  intro l
  induction l with
  | nil => intro i j _; rfl
  | cons c rest ih =>
      intro i j h
      unfold findAdjGo at h ⊢
      cases hat : findAdjAt (c :: rest) with
      | some q =>
          rw [hat] at h
          exact absurd (show some (i + q) = none from h) (by simp)
      | none =>
          rw [hat] at h
          have h2 : findAdjGo (i + 1) rest = none := h
          show findAdjGo (j + 1) rest = none
          exact ih _ _ h2

theorem findAdjGo_cons_ne {c : Char} (hc : c ≠ '<') (i : Nat) (t : Str) :
    findAdjGo i (c :: t) = findAdjGo (i + 1) t := by
  have h0 : findAdjGo i (c :: t) =
      (match findAdjAt (c :: t) with
       | some q => some (i + q)
       | none => findAdjGo (i + 1) t) := rfl
  rw [h0, findAdjAt_cons_ne hc]

theorem adjNone_lstrip {l : Str} (h : findAdjSearch l = none) :
    findAdjSearch (pyLstrip l) = none := by
  induction l with
  | nil => exact h
  | cons c rest ih =>
      by_cases hc : pyIsSpace c = true
      · rw [pyLstrip_cons_space hc]
        apply ih
        unfold findAdjSearch at h ⊢
        have hlt : c ≠ '<' := by
          intro he; rw [he] at hc; exact absurd hc (by decide)
        rw [findAdjGo_cons_ne hlt] at h
        exact findAdjGo_shift_none rest 1 0 h
      · rw [pyLstrip_cons_nonspace (by simpa using hc)]
        exact h

theorem adjNone_norm {xs : Str} (h : findAdjSearch ('%' :: xs) = none) :
    findAdjSearch (mojoNormalize ('%' :: xs)) = none := by
  cases xs with
  | nil => exact h
  | cons c rest =>
      unfold findAdjSearch at h
      rw [findAdjGo_cons_ne (by decide)] at h
      rcases mojoNormalize_eq c rest with he | he <;> rw [he] <;> unfold findAdjSearch
      · rw [findAdjGo_cons_ne (by decide), findAdjGo_cons_ne (by decide)]
        exact findAdjGo_shift_none _ 1 2 h
      · rw [findAdjGo_cons_ne (by decide)]
        exact h

theorem adjNone_spaces (k : Nat) {z : Str} (h : findAdjSearch z = none) :
    findAdjSearch (spaces k ++ z) = none := by
  induction k with
  | zero => exact h
  | succ k ih =>
      rw [show spaces (k + 1) ++ z = ' ' :: (spaces k ++ z) from rfl]
      unfold findAdjSearch at ih ⊢
      rw [findAdjGo_cons_ne (by decide)]
      exact findAdjGo_shift_none _ 0 1 ih

theorem contains_lt_cons_ne {c : Char} (hc : c ≠ '<') (t : Str) :
    containsSub (str "<%") (c :: t) = containsSub (str "<%") t := by
  have h1 : ('<' == c) = false := by
    rw [beq_eq_false_iff_ne]
    exact fun hh => hc hh.symm
  show (startsW (str "<%") (c :: t) || containsSub (str "<%") t) = _
  simp [startsW, str, List.isPrefixOf, h1]

theorem contains_lt_lstrip {l : Str} (h : containsSub (str "<%") l = false) :
    containsSub (str "<%") (pyLstrip l) = false := by
  induction l with
  | nil => exact h
  | cons c rest ih =>
      simp only [containsSub, Bool.or_eq_false_iff] at h
      by_cases hc : pyIsSpace c = true
      · rw [pyLstrip_cons_space hc]
        exact ih h.2
      · rw [pyLstrip_cons_nonspace (by simpa using hc)]
        simp only [containsSub, Bool.or_eq_false_iff]
        exact h

theorem contains_lt_norm {xs : Str} (h : containsSub (str "<%") ('%' :: xs) = false) :
    containsSub (str "<%") (mojoNormalize ('%' :: xs)) = false := by
  cases xs with
  | nil => exact h
  | cons c rest =>
      rw [contains_lt_cons_ne (by decide)] at h
      rcases mojoNormalize_eq c rest with he | he <;> rw [he]
      · rw [contains_lt_cons_ne (by decide), contains_lt_cons_ne (by decide)]
        exact h
      · rw [contains_lt_cons_ne (by decide)]
        exact h

theorem contains_lt_spaces (k : Nat) {z : Str} (h : containsSub (str "<%") z = false) :
    containsSub (str "<%") (spaces k ++ z) = false := by
  induction k with
  | zero => exact h
  | succ k ih =>
      rw [show spaces (k + 1) ++ z = ' ' :: (spaces k ++ z) from rfl,
        contains_lt_cons_ne (by decide)]
      exact ih

theorem mem_spaces {c : Char} {k : Nat} (h : c ∈ spaces k) : c = ' ' :=
  List.eq_of_mem_replicate h

theorem mem_lstrip {c : Char} {l : Str} (h : c ∈ pyLstrip l) : c ∈ l := by
  unfold pyLstrip at h
  exact (List.dropWhile_sublist pyIsSpace).subset h

theorem mem_norm_pct {c : Char} {xs : Str} (h : c ∈ mojoNormalize ('%' :: xs)) :
    c = ' ' ∨ c ∈ '%' :: xs := by
  cases xs with
  | nil => right; exact h
  | cons d rest =>
      rcases mojoNormalize_eq d rest with he | he <;> rw [he] at h
      · simp only [List.mem_cons] at h ⊢
        tauto
      · right; exact h

theorem processLinePost_id (sz : Nat) (m : Str) (hadj : findAdjSearch m = none) :
    processLinePost sz m = [m] := by
  unfold processLinePost
  rw [hadj]
  split
  · rfl
  · rfl

theorem flatMap_id_of (f : Str → List Str) :
    ∀ l : List Str, (∀ a ∈ l, f a = [a]) → l.flatMap f = l := by
  intro l
  induction l with
  | nil => intro _; rfl
  | cons a l2 ih =>
      intro h
      rw [List.flatMap_cons, h a (List.mem_cons_self _ _),
        ih fun b hb => h b (List.mem_cons_of_mem _ hb)]
      rfl

theorem pms_currentIndent (t : Str) (s : FmtState) :
    (processMojoStripped 4 t s).currentIndent =
      (mojoStep 4 t s.currentIndent s.perlBlockStack s.inFormBlock s.inContentBlock).2.1 := rfl

theorem pms_outputLines (t : Str) (s : FmtState) :
    (processMojoStripped 4 t s).outputLines = s.outputLines ++
      [spaces (mojoStep 4 t s.currentIndent s.perlBlockStack s.inFormBlock
        s.inContentBlock).1 ++ t] := rfl

theorem pms_perlBlockStack (t : Str) (s : FmtState) :
    (processMojoStripped 4 t s).perlBlockStack =
      (mojoStep 4 t s.currentIndent s.perlBlockStack s.inFormBlock s.inContentBlock).2.2.1 := rfl

theorem pms_inFormBlock (t : Str) (s : FmtState) :
    (processMojoStripped 4 t s).inFormBlock =
      (mojoStep 4 t s.currentIndent s.perlBlockStack s.inFormBlock
        s.inContentBlock).2.2.2.1 := rfl

theorem pms_inContentBlock (t : Str) (s : FmtState) :
    (processMojoStripped 4 t s).inContentBlock =
      (mojoStep 4 t s.currentIndent s.perlBlockStack s.inFormBlock
        s.inContentBlock).2.2.2.2 := rfl

/-- Re-running one directive pass on its own output: starting from two states
that agree on the indent, the directive stack, and the two block flags,
processing a list of directive lines from the first state and processing the
lines it emitted from the second state appends the same emitted lines to both
outputs and keeps the two states in agreement; every emitted line is an
indentation prefix followed by the normalised stripped source line. -/
theorem mojoRunPair :
    ∀ (ls : List Str),
      (∀ l ∈ ls, isMojoCommandLine l = true) →
      ∀ (s1 s2 : FmtState),
        s1.currentIndent = s2.currentIndent →
        s1.perlBlockStack = s2.perlBlockStack →
        s1.inFormBlock = s2.inFormBlock →
        s1.inContentBlock = s2.inContentBlock →
        ∃ (out : List Str) (t1 t2 : FmtState),
          runLines 4 true s1 ls = some t1 ∧
          t1.outputLines = s1.outputLines ++ out ∧
          runLines 4 true s2 out = some t2 ∧
          t2.outputLines = s2.outputLines ++ out ∧
          ∀ m ∈ out, ∃ (k : Nat) (l : Str), l ∈ ls ∧
            m = spaces k ++ mojoNormalize (pyLstrip l) := by
  intro ls
  induction ls with
  | nil =>
      intro _ s1 s2 _ _ _ _
      exact ⟨[], s1, s2, rfl, (List.append_nil _).symm, rfl, (List.append_nil _).symm,
        fun m hm => absurd hm (List.not_mem_nil m)⟩
  | cons l ls2 ih =>
      intro h s1 s2 hc hp hf hk
      have hl : isMojoCommandLine l = true := h l (List.mem_cons_self _ _)
      obtain ⟨xs, hxs⟩ := lstrip_of_isMojo hl
      obtain ⟨ys, hys⟩ : ∃ ys, mojoNormalize (pyLstrip l) = '%' :: ys := by
        rw [hxs]; exact mojoNormalize_head xs
      have hblank1 : pyStrip l ≠ [] := by
        unfold pyStrip
        rw [hxs]
        obtain ⟨zs, hz⟩ := pyRstrip_cons_nonspace (show pyIsSpace '%' = false from by decide) xs
        rw [hz]
        exact List.cons_ne_nil _ _
      have hms : mojoStep 4 (mojoNormalize (pyLstrip l)) s1.currentIndent s1.perlBlockStack
            s1.inFormBlock s1.inContentBlock =
          mojoStep 4 (mojoNormalize (pyLstrip l)) s2.currentIndent s2.perlBlockStack
            s2.inFormBlock s2.inContentBlock := by
        rw [hc, hp, hf, hk]
      have hc2 : (processMojoStripped 4 (mojoNormalize (pyLstrip l)) s1).currentIndent =
          (processMojoStripped 4 (mojoNormalize (pyLstrip l)) s2).currentIndent := by
        rw [pms_currentIndent, pms_currentIndent, hms]
      have hp2 : (processMojoStripped 4 (mojoNormalize (pyLstrip l)) s1).perlBlockStack =
          (processMojoStripped 4 (mojoNormalize (pyLstrip l)) s2).perlBlockStack := by
        rw [pms_perlBlockStack, pms_perlBlockStack, hms]
      have hf2 : (processMojoStripped 4 (mojoNormalize (pyLstrip l)) s1).inFormBlock =
          (processMojoStripped 4 (mojoNormalize (pyLstrip l)) s2).inFormBlock := by
        rw [pms_inFormBlock, pms_inFormBlock, hms]
      have hk2 : (processMojoStripped 4 (mojoNormalize (pyLstrip l)) s1).inContentBlock =
          (processMojoStripped 4 (mojoNormalize (pyLstrip l)) s2).inContentBlock := by
        rw [pms_inContentBlock, pms_inContentBlock, hms]
      obtain ⟨out2, u1, u2, hrun1, hout1, hrun2, hout2, hprops⟩ :=
        ih (fun e he => h e (List.mem_cons_of_mem _ he))
          (processMojoStripped 4 (mojoNormalize (pyLstrip l)) s1)
          (processMojoStripped 4 (mojoNormalize (pyLstrip l)) s2) hc2 hp2 hf2 hk2
      refine ⟨(spaces (mojoStep 4 (mojoNormalize (pyLstrip l)) s1.currentIndent
          s1.perlBlockStack s1.inFormBlock s1.inContentBlock).1 ++
          mojoNormalize (pyLstrip l)) :: out2, u1, u2, ?_, ?_, ?_, ?_, ?_⟩
      · rw [runLines_cons_mojo 4 s1 l ls2 hblank1 hl]
        exact hrun1
      · rw [hout1, pms_outputLines, List.append_assoc]
        rfl
      · have hmem2 : isMojoCommandLine (spaces (mojoStep 4 (mojoNormalize (pyLstrip l))
            s1.currentIndent s1.perlBlockStack s1.inFormBlock s1.inContentBlock).1 ++
            mojoNormalize (pyLstrip l)) = true := by
          rw [hys]; exact isMojo_spaces_pct _ ys
        have hblank2 : pyStrip (spaces (mojoStep 4 (mojoNormalize (pyLstrip l))
            s1.currentIndent s1.perlBlockStack s1.inFormBlock s1.inContentBlock).1 ++
            mojoNormalize (pyLstrip l)) ≠ [] := by
          rw [hys]
          exact pyStrip_spaces_pct_ne _ ys
        rw [runLines_cons_mojo 4 s2 _ out2 hblank2 hmem2]
        have hnorm2 : mojoNormalize (pyLstrip (spaces (mojoStep 4 (mojoNormalize (pyLstrip l))
            s1.currentIndent s1.perlBlockStack s1.inFormBlock s1.inContentBlock).1 ++
            mojoNormalize (pyLstrip l))) = mojoNormalize (pyLstrip l) := by
          rw [pyLstrip_spaces_append, hys,
            pyLstrip_cons_nonspace (show pyIsSpace '%' = false from by decide), ← hys, hxs]
          exact mojoNormalize_idem_pct xs
        have hpcm : processMojoCommandLine 4 s2 (spaces (mojoStep 4
              (mojoNormalize (pyLstrip l)) s1.currentIndent s1.perlBlockStack s1.inFormBlock
              s1.inContentBlock).1 ++ mojoNormalize (pyLstrip l)) =
            processMojoStripped 4 (mojoNormalize (pyLstrip l)) s2 := by
          unfold processMojoCommandLine
          rw [hnorm2]
        rw [hpcm]
        exact hrun2
      · rw [hout2, pms_outputLines, ← hms, List.append_assoc]
        rfl
      · intro m hm
        rcases List.mem_cons.mp hm with hm2 | hm2
        · exact ⟨_, l, List.mem_cons_self _ _, hm2⟩
        · obtain ⟨k, e, he, hme⟩ := hprops m hm2
          exact ⟨k, e, List.mem_cons_of_mem _ he, hme⟩

/-- C3 amended: the formatter is idempotent on documents that are a
newline-join of Mojolicious directive lines (each line, after stripping,
starts with `%`) that contain no line-break characters, no `<%` delimiter,
and no adjacent pair of closing tags: running `format` on its own output
reproduces that output exactly. -/
theorem c3_idempotent_directives (lines : List Str)
    (h : ∀ l ∈ lines, isMojoCommandLine l = true ∧
        (∀ c ∈ l, isLineBreakChar c = false) ∧
        containsSub (str "<%") l = false ∧
        findAdjSearch l = none) :
    (format tidyNone 4 true (joinNL lines)).bind (format tidyNone 4 true) =
      format tidyNone 4 true (joinNL lines) := by
  have hmojo : ∀ l ∈ lines, isMojoCommandLine l = true := fun l hl => (h l hl).1
  have hne : ∀ l ∈ lines, l ≠ [] := by
    intro l hl he
    obtain ⟨xs, hxs⟩ := lstrip_of_isMojo (hmojo l hl)
    rw [he] at hxs
    exact List.cons_ne_nil '%' xs hxs.symm
  have hcont : containsSub (str "<%") (joinNL lines) = false :=
    contains_lt_joinNL lines fun m hm => (h m hm).2.2.1
  have hpre : preprocessEmbedded tidyNone 4 (joinNL lines) = joinNL lines :=
    preprocess_id _ _ _ hcont
  have hsplit : splitLines (joinNL lines) = lines :=
    splitLines_joinNL lines fun m hm => ⟨hne m hm, (h m hm).2.1⟩
  obtain ⟨out, t1, t2, hrun1, hout1, hrun2, hout2, hprops⟩ :=
    mojoRunPair lines hmojo initState initState rfl rfl rfl rfl
  have hinfo : ∀ m ∈ out, ∃ (k : Nat) (l : Str) (xs ys : Str),
      l ∈ lines ∧ pyLstrip l = '%' :: xs ∧ mojoNormalize ('%' :: xs) = '%' :: ys ∧
      m = spaces k ++ '%' :: ys ∧ m = spaces k ++ mojoNormalize (pyLstrip l) := by
    intro m hm
    obtain ⟨k, l, hlm, hmeq⟩ := hprops m hm
    obtain ⟨xs, hxs⟩ := lstrip_of_isMojo (hmojo l hlm)
    obtain ⟨ys, hys⟩ := mojoNormalize_head xs
    refine ⟨k, l, xs, ys, hlm, hxs, hys, ?_, hmeq⟩
    rw [hmeq, hxs, hys]
  have hne2 : ∀ m ∈ out, m ≠ [] := by
    intro m hm
    obtain ⟨k, l, xs, ys, hlm, hxs, hys, hm4, hm5⟩ := hinfo m hm
    rw [hm4]
    intro hcon
    exact List.cons_ne_nil '%' ys (List.append_eq_nil.mp hcon).2
  have hnb : ∀ m ∈ out, ∀ c ∈ m, isLineBreakChar c = false := by
    intro m hm c hcm
    obtain ⟨k, l, xs, ys, hlm, hxs, hys, hm4, hm5⟩ := hinfo m hm
    rw [hm5] at hcm
    rcases List.mem_append.mp hcm with hsp | hnm
    · rw [mem_spaces hsp]; decide
    · rw [hxs] at hnm
      rcases mem_norm_pct hnm with hsp2 | hcx
      · rw [hsp2]; decide
      · have hcl : c ∈ pyLstrip l := by rw [hxs]; exact hcx
        exact (h l hlm).2.1 c (mem_lstrip hcl)
  have hstripne : ∀ m ∈ out, pyStrip m ≠ str "<%" := by
    intro m hm
    obtain ⟨k, l, xs, ys, hlm, hxs, hys, hm4, hm5⟩ := hinfo m hm
    rw [hm4]
    obtain ⟨zs, hz⟩ := pyStrip_spaces_pct k ys
    rw [hz]
    intro hcon
    rw [show str "<%" = '<' :: '%' :: [] from rfl] at hcon
    injection hcon with h1 h2
    exact absurd h1 (by decide)
  have hcont2 : ∀ m ∈ out, containsSub (str "<%") m = false := by
    intro m hm
    obtain ⟨k, l, xs, ys, hlm, hxs, hys, hm4, hm5⟩ := hinfo m hm
    rw [hm5]
    apply contains_lt_spaces
    rw [hxs]
    apply contains_lt_norm
    rw [← hxs]
    exact contains_lt_lstrip (h l hlm).2.2.1
  have hadj2 : ∀ m ∈ out, findAdjSearch m = none := by
    intro m hm
    obtain ⟨k, l, xs, ys, hlm, hxs, hys, hm4, hm5⟩ := hinfo m hm
    rw [hm5]
    apply adjNone_spaces
    rw [hxs]
    apply adjNone_norm
    rw [← hxs]
    exact adjNone_lstrip (h l hlm).2.2.2
  have hpost : postprocessClosingTags 4 out = out := by
    unfold postprocessClosingTags
    rw [postprocessGo_flatMap 4 out hstripne]
    exact flatMap_id_of (processLinePost 4) out fun m hm => processLinePost_id 4 m (hadj2 m hm)
  have hform1 : format tidyNone 4 true (joinNL lines) = some (joinNL out) := by
    have hfl : formatLinePass tidyNone 4 true (joinNL lines) = some t1 := by
      unfold formatLinePass
      rw [hpre, hsplit]
      exact hrun1
    unfold format
    rw [hfl]
    show some (joinNL (postprocessClosingTags 4 t1.outputLines)) = some (joinNL out)
    rw [hout1, show initState.outputLines = ([] : List Str) from rfl, List.nil_append, hpost]
  have hcontOut : containsSub (str "<%") (joinNL out) = false :=
    contains_lt_joinNL out hcont2
  have hsplitOut : splitLines (joinNL out) = out :=
    splitLines_joinNL out fun m hm => ⟨hne2 m hm, hnb m hm⟩
  have hform2 : format tidyNone 4 true (joinNL out) = some (joinNL out) := by
    have hfl : formatLinePass tidyNone 4 true (joinNL out) = some t2 := by
      unfold formatLinePass
      rw [preprocess_id _ _ _ hcontOut, hsplitOut]
      exact hrun2
    unfold format
    rw [hfl]
    show some (joinNL (postprocessClosingTags 4 t2.outputLines)) = some (joinNL out)
    rw [hout2, show initState.outputLines = ([] : List Str) from rfl, List.nil_append, hpost]
  rw [hform1]
  show format tidyNone 4 true (joinNL out) = some (joinNL out)
  exact hform2

/-- C3 witness: the two-directive document `% if (1) {` / `% }` satisfies the
restriction and formatting its formatted form reproduces it. -/
theorem c3_witness :
    (format tidyNone 4 true (joinNL [str "% if (1) \x7b", str "% \x7d"])).bind
        (format tidyNone 4 true) =
      format tidyNone 4 true (joinNL [str "% if (1) \x7b", str "% \x7d"]) :=
  c3_idempotent_directives [str "% if (1) \x7b", str "% \x7d"] (by decide)

end MojoFmt
